import Mathlib

/-!
Verification of the ERA5 consolidation pipeline
(`src/scripts/a0001_wrangle_era5_data.py` and
`src/scripts/a0001_wrangle_era5_data_monthly.py`).

Strings that flow through filename parsing are modelled as `List Char`
(`String.toList` of the Python value); filenames, directory listings and
file sizes are explicit data.  Pandas cell values are modelled by the
inductive type `PVal`; numeric payloads are abstracted as integers, since
every claim is about classification, typing and flow of values, never about
float arithmetic.  Python functions that may raise are modelled in
`Except`; `try/except` blocks become `match` on the `Except` value.
-/

namespace Wrangle

/-- `String.toList`, used to write character-list literals readably. -/
def s2l (s : String) : List Char := s.toList

/-- `isStart p s` is true when the list `p` is an initial run of `s`
(the test Python performs with `str.startswith` and, at a fixed position,
when `str.replace` looks for its pattern). -/
def isStart : List Char → List Char → Bool
  | [], _ => true
  | _ :: _, [] => false
  | p :: ps, c :: cs => decide (p = c) && isStart ps cs

/-- `endsWithL p s`: the list `p` is a final run of `s` (Python `str.endswith`). -/
def endsWithL (p s : List Char) : Bool := isStart p.reverse s.reverse

/-- `hasSeg pat s`: `pat` occurs contiguously somewhere in `s`
(Python `pat in s`). -/
def hasSeg (pat : List Char) : List Char → Bool
  | [] => isStart pat []
  | c :: rest => isStart pat (c :: rest) || hasSeg pat rest

/-- Decimal digit characters used by `str(int)` formatting. -/
def digitChar (d : Nat) : Char := Char.ofNat (48 + d)

/-- `isDig c`: `c` is an ASCII decimal digit. -/
def isDig (c : Char) : Bool := 48 ≤ c.toNat && c.toNat ≤ 57

/-- Fuel-driven decimal rendering of a natural number (`str(n)` in Python,
for the nonnegative numbers that appear as years and months). -/
def natStrAux : Nat → Nat → List Char
  | 0, _ => []
  | f + 1, n => if n < 10 then [digitChar n] else natStrAux f (n / 10) ++ [digitChar (n % 10)]

/-- `str(n)` for a natural number `n`. -/
def natStr (n : Nat) : List Char := natStrAux (n + 1) n

/-- `f"{m:02d}"` for a natural month number: zero-pad to two digits. -/
def pad2 (m : Nat) : List Char := if m < 10 then '0' :: natStr m else natStr m

/-- The accumulator loop of decimal parsing. -/
def pnFold (l : List Char) (a : Nat) : Nat := l.foldl (fun acc c => acc * 10 + (c.toNat - 48)) a

/-- Python `int(s)` on a segment, modelled for strings of decimal digits
(the only shapes the scripts construct; other strings raise `ValueError`,
modelled as `none`). -/
def parseNat (l : List Char) : Option Nat :=
  if l.isEmpty then none
  else if l.all isDig then some (pnFold l 0) else none

/-- Python `str.split(sep)` for a one-character separator. -/
def splitOnC (sep : Char) : List Char → List (List Char)
  | [] => [[]]
  | c :: rest =>
    if c = sep then [] :: splitOnC sep rest
    else
      match splitOnC sep rest with
      | [] => [[c]]
      | g :: gs => (c :: g) :: gs

/-- Python `sep.join(parts)` for a one-character separator. -/
def joinWith (sep : Char) : List (List Char) → List Char
  | [] => []
  | [x] => x
  | x :: y :: rest => x ++ sep :: joinWith sep (y :: rest)

/-- The literal `'.grib'` that `discover_available_data` strips with
`filename.replace('.grib', '')`. -/
def gribExt : List Char := ['.', 'g', 'r', 'i', 'b']

/-- One step of Python `str.replace('.grib', '')`: scan left to right,
removing each non-overlapping occurrence of `'.grib'`.  Fuel-driven so the
kernel can evaluate it. -/
def stripGribF : Nat → List Char → List Char
  | 0, s => s
  | _ + 1, [] => []
  | f + 1, c :: rest =>
    if isStart gribExt (c :: rest) then stripGribF f (rest.drop 4)
    else c :: stripGribF f rest

/-- `filename.replace('.grib', '')`. -/
def stripGrib (s : List Char) : List Char := stripGribF s.length s

/-- `f"era5_{year}_{month:02d}_{variable}.grib"`
(`get_available_months_for_year_variable` and `process_all_data`). -/
def buildFilename (y m : Nat) (v : List Char) : List Char :=
  s2l "era5_" ++ natStr y ++ s2l "_" ++ pad2 m ++ s2l "_" ++ v ++ gribExt

/-- The filename-parsing step of `discover_available_data`:
`parts = filename.replace('.grib', '').split('_')`; require
`len(parts) >= 4 and parts[0] == 'era5'`; `int(parts[1])`, `int(parts[2])`;
`variable = '_'.join(parts[3:])`.  Range validation is separate
(`acceptFilename`). -/
def parseFilename (name : List Char) : Option (Nat × Nat × List Char) :=
  match splitOnC '_' (stripGrib name) with
  | p0 :: p1 :: p2 :: rest =>
    if p0 = s2l "era5" ∧ rest ≠ [] then
      match parseNat p1, parseNat p2 with
      | some y, some m => some (y, m, joinWith '_' rest)
      | _, _ => none
    else none
  | _ => none

/-- `1900 <= year <= currentYear and 1 <= month <= 12`. -/
def rangeOK (cy y m : Nat) : Bool := 1900 ≤ y && y ≤ cy && 1 ≤ m && m ≤ 12

/-- A filename contributes a `(year, month, variable)` triple to the catalog
exactly when it parses and passes the range validation. -/
def acceptFilename (cy : Nat) (name : List Char) : Option (Nat × Nat × List Char) :=
  match parseFilename name with
  | some (y, m, v) => if rangeOK cy y m then some (y, m, v) else none
  | none => none

/-- The `input_dir.glob("era5_*.grib")` pre-filter: only filenames starting
with `era5_` and ending with `.grib` are ever handed to the parser. -/
def globMatch (name : List Char) : Bool :=
  isStart (s2l "era5_") name && endsWithL (s2l ".grib") name

/-- Result of `discover_available_data` in the main script: sorted lists of
the years and variables found, plus the count of accepted files and the
glob-matching filenames that were rejected (each rejection is logged, never
raised). -/
structure DiscoverResult where
  years : List Nat
  vars : List (List Char)
  fileCount : Nat
  rejected : List (List Char)
deriving DecidableEq

/-- Insertion step of `sorted()` on the collected year set. -/
def insertSorted (x : Nat) : List Nat → List Nat
  | [] => [x]
  | y :: ys => if x ≤ y then x :: y :: ys else y :: insertSorted x ys

/-- `sorted(list(years_found))`. -/
def sortNats (l : List Nat) : List Nat := l.foldr insertSorted []

/-- `discover_available_data` of `a0001_wrangle_era5_data.py`: glob the
directory, parse and range-validate each filename, collect the set of years
and of variables (sets modelled as `dedup`ed lists; the source returns both
`sorted`, mirrored for years by `sortNats`; for variables the sort key is
the lexicographic string order, which no claim depends on, so the deduped
list is kept in first-seen order). -/
def discover (cy : Nat) (names : List (List Char)) : DiscoverResult :=
  let globbed := names.filter globMatch
  let accepted := globbed.filterMap (acceptFilename cy)
  { years := sortNats ((accepted.map (fun t => t.1)).dedup)
    vars := (accepted.map (fun t => t.2.2)).dedup
    fileCount := accepted.length
    rejected := globbed.filter (fun n => (acceptFilename cy n).isNone) }

/-- A file is in the catalog ("included") when it passes the glob pre-filter
and `acceptFilename`; `discover_available_data` skips every other file. -/
def includedFile (cy : Nat) (name : List Char) : Bool :=
  globMatch name && (acceptFilename cy name).isSome

/-- Modelled from the spec (claim C5's wording): the exclusion conditions the
specification lists for the Catalog Scanner, evaluated on the
`.grib`-stripped, `_`-split filename: prefix mismatch, fewer than four
segments, non-integer year or month, year outside `[1900, currentYear]`,
month outside `[1, 12]`.  Used only to compare the spec's rejection rule
with the code's actual one. -/
def specExclusionConditions (cy : Nat) (name : List Char) : Bool :=
  let parts := splitOnC '_' (stripGrib name)
  let p0 := parts.getD 0 []
  let p1 := parts.getD 1 []
  let p2 := parts.getD 2 []
  decide (p0 ≠ s2l "era5") || decide (parts.length < 4) ||
  (parseNat p1).isNone || (parseNat p2).isNone ||
  (match parseNat p1 with
   | some y => !(1900 ≤ y && y ≤ cy)
   | none => false) ||
  (match parseNat p2 with
   | some m => !(1 ≤ m && m ≤ 12)
   | none => false)

/-- A source directory: the list of `(filename, size-in-bytes)` pairs. -/
def FileSys : Type := List (List Char × Nat)

/-- `filepath.stat().st_size`, when the file exists. -/
def fileSizeOf (fs : FileSys) (name : List Char) : Option Nat :=
  match fs.find? (fun p => decide (p.1 = name)) with
  | some p => some p.2
  | none => none

/-- `check_file_exists`: the file exists and is larger than 1 KiB
(`filepath.stat().st_size > 1024`). -/
def checkFileExists (fs : FileSys) (name : List Char) : Bool :=
  match fileSizeOf fs name with
  | some sz => decide (1024 < sz)
  | none => false

/-- `get_available_months_for_year_variable`: the months in `1..12` whose
zero-padded reconstruction `era5_{year}_{month:02d}_{variable}.grib` exists
and passes `check_file_exists`. -/
def availableMonths (fs : FileSys) (y : Nat) (v : List Char) : List Nat :=
  (List.range' 1 12).filter (fun m => checkFileExists fs (buildFilename y m v))

/-- One element of `files_to_process`: the tuple
`(filepath, variable, year, month)`. -/
structure QItem where
  path : List Char
  varName : List Char
  year : Nat
  month : Nat
deriving DecidableEq

/-- The counters and queue produced by the queue-building loop of
`process_all_data`. -/
structure PlanState where
  queue : List QItem
  skipped : Nat
  missing : Nat
deriving DecidableEq

/-- The queue-building loop of `process_all_data` (lines 286-311): for each
year, variable, and available month: skip (counting `files_skipped`) when
`(year, month, variable)` is in `existing_data`; otherwise re-check the file
(counting `files_missing` when the re-check fails); otherwise append
`(filepath, variable, year, month)`.  The triple loop is rendered as nested
comprehensions that enumerate in the same order and test the same branch
conditions. -/
def buildPlan (fs : FileSys) (years : List Nat) (vars : List (List Char))
    (existing : List (Nat × Nat × List Char)) : PlanState :=
  { queue := years.flatMap fun y => vars.flatMap fun v =>
      (((availableMonths fs y v).filter fun m =>
          decide ((y, m, v) ∉ existing) && checkFileExists fs (buildFilename y m v)).map
        fun m => QItem.mk (buildFilename y m v) v y m)
    skipped := (years.flatMap fun y => vars.flatMap fun v =>
      (availableMonths fs y v).filter fun m => decide ((y, m, v) ∈ existing)).length
    missing := (years.flatMap fun y => vars.flatMap fun v =>
      (availableMonths fs y v).filter fun m =>
        decide ((y, m, v) ∉ existing) && !checkFileExists fs (buildFilename y m v)).length }

/-- The candidate units the queue-building loop enumerates: every
`(year, month, variable)` from discovered years × discovered variables whose
zero-padded file exists and passes the minimum-size check. -/
def candidates (fs : FileSys) (years : List Nat) (vars : List (List Char)) :
    List (Nat × Nat × List Char) :=
  years.flatMap fun y => vars.flatMap fun v =>
    (availableMonths fs y v).map fun m => (y, m, v)

/-- One row of the output sink.  The identity columns `year`, `month`,
`variable_name` are explicit; the remaining columns (latitude, longitude,
time, raw field name, value) are abstracted as a payload of type `α`. -/
structure SinkRow (α : Type) where
  year : Nat
  month : Nat
  varName : List Char
  payload : α
deriving DecidableEq

/-- The `(year, month, variable_name)` identity of a sink row. -/
def keyOf {α : Type} (r : SinkRow α) : Nat × Nat × List Char := (r.year, r.month, r.varName)

/-- The states `get_existing_data_index` can find the sink in: missing,
existing but unreadable (corrupt file, missing identity columns, any other
read failure), or readable with its rows. -/
inductive SinkState (α : Type)
  | absent
  | corrupt (msg : String)
  | avail (rows : List (SinkRow α))

/-- The distinguishable notices `get_existing_data_index` prints. -/
inductive IndexNotice
  | freshStart
  | readFailed
  | loadedOK
deriving DecidableEq

/-- `get_existing_data_index`: no sink → empty set ("will create new file");
read failure → empty set after an error notice ("will treat as new file");
otherwise the deduplicated `(year, month, variable_name)` triples of the
sink.  The function is total: no branch propagates an exception. -/
def getExistingDataIndex {α : Type} : SinkState α → List (Nat × Nat × List Char) × List IndexNotice
  | .absent => ([], [.freshStart])
  | .corrupt _ => ([], [.readFailed])
  | .avail rows => ((rows.map keyOf).dedup, [.loadedOK])

/-- The `(year, month, variable_name)` index of an in-memory sink, as the
successful branch of `get_existing_data_index` computes it. -/
def existingKeys {α : Type} (sink : List (SinkRow α)) : List (Nat × Nat × List Char) :=
  (sink.map keyOf).dedup

/-- A write performed by `append_to_output_file`: creation with a header row,
or header-less append, carrying the row count written. -/
inductive WriteEvent
  | createWithHeader (n : Nat)
  | appendNoHeader (n : Nat)
deriving DecidableEq

/-- `append_to_output_file`: an empty frame returns without touching the
sink; otherwise append without header when the sink exists, else create it
with a header.  The sink is `none` while the file does not exist. -/
def appendToOutputFile {α : Type} (dfNew : List (SinkRow α)) (sink : Option (List (SinkRow α))) :
    Option (List (SinkRow α)) × Option WriteEvent :=
  if dfNew.isEmpty then (sink, none)
  else
    match sink with
    | some rows => (some (rows ++ dfNew), some (.appendNoHeader dfNew.length))
    | none => (some dfNew, some (.createWithHeader dfNew.length))

/-- The sequence of `append_to_output_file` calls a run makes: each batch (or
chunk of a large batch) is committed in order; the events record which
writes carried a header. -/
def commitAll {α : Type} : List (List (SinkRow α)) → Option (List (SinkRow α)) →
    Option (List (SinkRow α)) × List WriteEvent
  | [], sink => (sink, [])
  | b :: rest, sink =>
    let step := appendToOutputFile b sink
    let next := commitAll rest step.1
    (next.1, step.2.toList ++ next.2)

/-- One full consolidation run of `a0001_wrangle_era5_data.py` over a source
directory `fs` and an in-memory sink: discover years and variables, read the
existing-key index from the sink, build the queue, then append, for every
queued unit, the transform's rows tagged with that unit's year, month and
variable (`df_long.assign(variable_name=variable, year=year, month=month)`).
`t` abstracts the per-unit Grid Decoder + reshape, giving the payloads of
the rows a unit contributes. -/
def runPipeline {α : Type} (cy : Nat) (fs : FileSys) (t : Nat → Nat → List Char → List α)
    (sink : List (SinkRow α)) : List (SinkRow α) :=
  let d := discover cy (fs.map fun p => p.1)
  let plan := buildPlan fs d.years d.vars (existingKeys sink)
  sink ++ plan.queue.flatMap fun q => (t q.year q.month q.varName).map
    fun a => SinkRow.mk q.year q.month q.varName a

/-- A pandas cell value: a numeric value (payload abstracted as an integer),
a Timedelta (carrying its `total_seconds()`), a missing value, or
non-numeric text. -/
inductive PVal
  | num (x : Int)
  | dur (secs : Int)
  | nan
  | txt (s : String)
deriving DecidableEq

/-- A decoded table as `dataset.to_dataframe().reset_index()` hands it to the
reshape: its column names and its rows (each an association list from column
name to cell). -/
structure RawDF where
  cols : List String
  rows : List (List (String × PVal))
deriving DecidableEq

/-- Cell lookup in a decoded row. -/
def getCell (r : List (String × PVal)) (c : String) : PVal :=
  match r.find? (fun p => decide (p.1 = c)) with
  | some p => p.2
  | none => PVal.nan

/-- The fixed coordinate-name set of the monthly script
(`potential_coordinate_columns`). -/
def potentialCoordinateColumns : List String :=
  ["latitude", "longitude", "time", "step", "valid_time", "number", "surface",
   "heightAboveGround", "isobaricInhPa"]

/-- `coordinate_columns`: the potential coordinate names present in the table. -/
def coordinateColumnsOf (df : RawDF) : List String :=
  potentialCoordinateColumns.filter (fun c => decide (c ∈ df.cols))

/-- `variable_columns`: every column not identified as a coordinate. -/
def variableColumnsOf (df : RawDF) : List String :=
  df.cols.filter (fun c => decide (c ∉ coordinateColumnsOf df))

/-- `time_col = 'valid_time' if 'valid_time' in df.columns else 'time'`. -/
def timeColOf (df : RawDF) : String :=
  if "valid_time" ∈ df.cols then "valid_time" else "time"

/-- One row of the long-format output of the transform (column
`grib_variable_name` is the spec's `raw_field_name`). -/
structure OutRow where
  lat : PVal
  lon : PVal
  tm : PVal
  varName : List Char
  gribVar : String
  value : PVal
  year : Nat
  month : Nat
deriving DecidableEq

/-- `pd.melt(df, id_vars=[lat, lon, time_col], value_vars=variable_columns)`
followed by the rename of `time_col` to `time` and
`assign(variable_name=..., year=..., month=...)`: pandas stacks the melted
frame one value-column at a time. -/
def meltAssign (df : RawDF) (v : List Char) (y m : Nat) : List OutRow :=
  (variableColumnsOf df).flatMap fun c => df.rows.map fun r =>
    { lat := getCell r "latitude", lon := getCell r "longitude",
      tm := getCell r (timeColOf df), varName := v, gribVar := c,
      value := getCell r c, year := y, month := m }

/-- `pd.to_numeric(_, errors='coerce')` on one cell: numbers pass through,
everything non-numeric (missing values stay missing; Timedelta objects and
non-numeric text fail coercion) becomes `NaN`. -/
def toNumericCoerce : PVal → PVal
  | .num x => .num x
  | .nan => .nan
  | .dur _ => .nan
  | .txt _ => .nan

/-- `convert_value` of the monthly script: a Timedelta becomes
`float(x.total_seconds())`; missing values and everything else pass through. -/
def convertValue : PVal → PVal
  | .dur s => .num s
  | x => x

/-- The cell is a Timedelta. -/
def isDurCell : PVal → Bool
  | .dur _ => true
  | _ => false

/-- The cell is non-numeric text. -/
def isTxtCell : PVal → Bool
  | .txt _ => true
  | _ => false

/-- The cell is numeric. -/
def isNumCell : PVal → Bool
  | .num _ => true
  | _ => false

/-- `df_long['value'].dtype == 'object'`, following pandas dtype inference:
a column gets dtype `object` when it holds Python objects pandas cannot give
a native dtype — any text cell, or a mix of Timedelta and numeric cells.  A
homogeneous Timedelta column (missing values allowed) is `timedelta64[ns]`,
not `object`; an all-numeric or all-missing column is a float dtype, not
`object`. -/
def valueColumnIsObject (rows : List OutRow) : Bool :=
  (rows.any fun o => isTxtCell o.value) ||
  ((rows.any fun o => isDurCell o.value) && (rows.any fun o => isNumCell o.value))

/-- The value column has dtype `timedelta64[ns]`: at least one Timedelta and
every cell a Timedelta or missing. -/
def valueColumnIsTimedelta (rows : List OutRow) : Bool :=
  (rows.any fun o => isDurCell o.value) &&
  (rows.all fun o => isDurCell o.value || decide (o.value = PVal.nan))

/-- What `pd.to_numeric` does to one cell of a `timedelta64[ns]` column:
the Timedelta's int64 nanosecond count (missing stays missing). -/
def durToNanos : PVal → PVal
  | .dur s => .num (s * 1000000000)
  | x => x

/-- `if df_long['value'].dtype == 'object': ... .apply(convert_value)` —
the conditional Timedelta-to-seconds pre-conversion of the monthly script,
applied only when the column has dtype `object`. -/
def rows1Of (rows : List OutRow) : List OutRow :=
  if valueColumnIsObject rows
    then rows.map (fun o => { o with value := convertValue o.value })
    else rows

/-- `pd.to_numeric(df_long['value'], errors='coerce')` at column level: a
`timedelta64[ns]` column converts to its integer nanosecond counts (never
seconds); every other column is coerced cell-wise (`toNumericCoerce`).
(Newer pandas releases instead raise on the timedelta64 case, which the
surrounding catch-all would turn into the empty frame — under neither
behavior does a seconds value appear for a homogeneous Timedelta column.) -/
def toNumericColumn (rows : List OutRow) : List OutRow :=
  if valueColumnIsTimedelta rows
    then rows.map (fun o => { o with value := durToNanos o.value })
    else rows.map (fun o => { o with value := toNumericCoerce o.value })

/-- The value-processing tail of the monthly transform: the conditional
Timedelta pre-conversion (`rows1Of`), then `pd.to_numeric(errors='coerce')`
(`toNumericColumn`), then `dropna(subset=['value'])`, returning the
surviving rows and the count of dropped rows. -/
def processValues (rows : List OutRow) : List OutRow × Nat :=
  let rows1 := rows1Of rows
  let rows2 := toNumericColumn rows1
  let kept := rows2.filter fun o => decide (o.value ≠ PVal.nan)
  (kept, rows2.length - kept.length)

/-- `pd.to_numeric(errors='coerce')` on the latitude/longitude cells,
followed by `astype('float32')` (the cast is recorded at frame level). -/
def coerceLatLon (o : OutRow) : OutRow :=
  { o with lat := toNumericCoerce o.lat, lon := toNumericCoerce o.lon }

/-- The composite per-cell value transformation `processValues` applies to
one melted cell, given the column-level dtype flags: `convert_value` when
the column dtype is `object` (`obj`), then `pd.to_numeric` — nanoseconds
when the column reaching it is `timedelta64[ns]` (`td`), cell-wise coercion
otherwise. -/
def coercedValue (obj td : Bool) (x : PVal) : PVal :=
  if td then durToNanos (if obj then convertValue x else x)
  else toNumericCoerce (if obj then convertValue x else x)

/-- `coercedValue` with both column-level dtype flags read off the actual
melted rows: the `object` test on the column as melted, the `timedelta64`
test on the column as it reaches `pd.to_numeric` (after the conditional
pre-conversion). -/
def colCoerce (rows : List OutRow) (x : PVal) : PVal :=
  coercedValue (valueColumnIsObject rows) (valueColumnIsTimedelta (rows1Of rows)) x

/-- Pandas dtypes the transform manipulates. -/
inductive DType
  | float32
  | float64
  | int64
  | int16
  | int8
  | objectD
deriving DecidableEq

/-- The reshaped result of the monthly transform: rows, dropped-row count,
final column order, and frame-level dtypes of the cast columns. -/
structure MonthlyOut where
  rows : List OutRow
  dropped : Nat
  cols : List String
  latDtype : DType
  lonDtype : DType
  valueDtype : DType
  yearDtype : DType
  monthDtype : DType
deriving DecidableEq

/-- The fixed output column order of both transforms
(`df_long[['latitude', 'longitude', 'time', 'variable_name',
'grib_variable_name', 'value', 'year', 'month']]`). -/
def longColumns : List String :=
  ["latitude", "longitude", "time", "variable_name", "grib_variable_name",
   "value", "year", "month"]

/-- `load_grib_to_long_format` of `a0001_wrangle_era5_data_monthly.py`:
decode (any decode failure is caught and yields the empty frame, modelled as
`none`), pick coordinate and data columns, bail out empty when there are no
data columns, melt on `[latitude, longitude, time_col]` (a missing id
column raises `KeyError`, caught into the empty frame), coerce latitude and
longitude, process the value column, and stamp dtypes — `value`/`year`/
`month` are cast only when at least one row survived (`if len(df_long) > 0`),
while latitude/longitude are cast unconditionally. -/
def loadGribMonthly (raw : Except String RawDF) (v : List Char) (y m : Nat) : Option MonthlyOut :=
  match raw with
  | .error _ => none
  | .ok df =>
    if variableColumnsOf df = [] then none
    else if ¬ ("latitude" ∈ df.cols ∧ "longitude" ∈ df.cols ∧ timeColOf df ∈ df.cols) then none
    else
      let melted := (meltAssign df v y m).map coerceLatLon
      let vp := processValues melted
      some { rows := vp.1, dropped := vp.2, cols := longColumns,
             latDtype := .float32, lonDtype := .float32,
             valueDtype := if vp.1 ≠ [] then .float32 else .float64,
             yearDtype := if vp.1 ≠ [] then .int16 else .int64,
             monthDtype := if vp.1 ≠ [] then .int8 else .int64 }

/-- `variable_columns` of the main script's transform: everything outside
`['latitude', 'longitude', 'time']`. -/
def variableColumnsMain (df : RawDF) : List String :=
  df.cols.filter fun c => decide (¬ (c = "latitude" ∨ c = "longitude" ∨ c = "time"))

/-- A cell `astype('float32')` accepts: numbers and missing values; a
Timedelta or text cell makes the cast raise. -/
def floatCastable : PVal → Bool
  | .num _ => true
  | .nan => true
  | .dur _ => false
  | .txt _ => false

/-- The melt+assign step of the main script's transform (id columns fixed to
latitude/longitude/time). -/
def meltMain (df : RawDF) (v : List Char) (y m : Nat) : List OutRow :=
  (variableColumnsMain df).flatMap fun c => df.rows.map fun r =>
    { lat := getCell r "latitude", lon := getCell r "longitude",
      tm := getCell r "time", varName := v, gribVar := c,
      value := getCell r c, year := y, month := m }

/-- The body of the main script's `load_grib_to_long_format` `try:` block,
with each way it can raise made explicit: the decode itself, the melt
(`KeyError` on a missing id column), and `astype('float32')` on a
non-castable value column.  `variable_columns == []` is not an error: it
returns the empty frame. -/
def loadGribMainBody (raw : Except String RawDF) (v : List Char) (y m : Nat) :
    Except String (List OutRow) :=
  match raw with
  | .error e => .error e
  | .ok df =>
    if variableColumnsMain df = [] then .ok []
    else if ¬ ("latitude" ∈ df.cols ∧ "longitude" ∈ df.cols ∧ "time" ∈ df.cols) then
      .error "KeyError: melt id_vars"
    else
      let rows := meltMain df v y m
      if rows.any (fun o => !floatCastable o.value) then .error "TypeError: astype float32"
      else .ok rows

/-- `load_grib_to_long_format` of `a0001_wrangle_era5_data.py`: the whole
body sits in `try: ... except Exception: return pd.DataFrame()`, so every
internal failure is swallowed into the empty frame. -/
def loadGribMain (raw : Except String RawDF) (v : List Char) (y m : Nat) : List OutRow :=
  match loadGribMainBody raw v y m with
  | .ok l => l
  | .error _ => []

/-- `process_single_file`: the `try:` body only calls
`load_grib_to_long_format` — a function that catches internally and always
returns — so the body is a total expression (`Except.ok` of its value), and
the `except` branch that would produce `(False, filepath, str(e))` matches
on its error case. -/
def processSingleFile (raw : Except String RawDF) (v : List Char) (y m : Nat) :
    Bool × List OutRow :=
  match (Except.ok (loadGribMain raw v y m) : Except String (List OutRow)) with
  | .ok df => (true, df)
  | .error _ => (false, [])

/-- How the result-collection loop of `process_all_data` classifies one
worker result. -/
inductive Outcome
  | processed
  | emptyResult
  | failed
deriving DecidableEq

/-- `if success and not result.empty: ...processed; elif success: ...empty;
else: ...failed` (the failed branch increments `files_missing`). -/
def classifyResult (success : Bool) (rows : List OutRow) : Outcome :=
  if success ∧ rows ≠ [] then .processed
  else if success then .emptyResult
  else .failed

/-- A small decoded table exposing both `time` and `valid_time` (with
different values) plus a `step` auxiliary coordinate, used as concrete
witness input. -/
def sampleC6DF : RawDF :=
  { cols := ["latitude", "longitude", "time", "valid_time", "step", "t2m"],
    rows := [[("latitude", PVal.num 10), ("longitude", PVal.num 20), ("time", PVal.num 1),
      ("valid_time", PVal.num 2), ("step", PVal.dur 3), ("t2m", PVal.num 300)]] }

/-- The reshaped result of `sampleC6DF`: one row, timestamped from
`valid_time`. -/
def sampleC6Out : MonthlyOut :=
  { rows := [OutRow.mk (PVal.num 10) (PVal.num 20) (PVal.num 2)
      (s2l "2m_temperature") "t2m" (PVal.num 300) 2024 1],
    dropped := 0, cols := longColumns,
    latDtype := .float32, lonDtype := .float32, valueDtype := .float32,
    yearDtype := .int16, monthDtype := .int8 }

/-- A small decoded table whose single data column holds one Timedelta and
one non-numeric text cell, used as concrete witness input. -/
def sampleC7DF : RawDF :=
  { cols := ["latitude", "longitude", "time", "tp"],
    rows := [[("latitude", PVal.num 10), ("longitude", PVal.num 20), ("time", PVal.num 1),
      ("tp", PVal.dur 7)],
     [("latitude", PVal.num 11), ("longitude", PVal.num 21), ("time", PVal.num 2),
      ("tp", PVal.txt "bad")]] }

/-- The reshaped result of `sampleC7DF`: the value column is `object` (it
mixes a Timedelta with text), so the Timedelta row survives as its seconds
and the text row is dropped and counted. -/
def sampleC7Out : MonthlyOut :=
  { rows := [OutRow.mk (PVal.num 10) (PVal.num 20) (PVal.num 1)
      (s2l "total_precipitation") "tp" (PVal.num 7) 2024 2],
    dropped := 1, cols := longColumns,
    latDtype := .float32, lonDtype := .float32, valueDtype := .float32,
    yearDtype := .int16, monthDtype := .int8 }

/-- A decoded table whose single data column holds only a Timedelta, so the
melted value column is homogeneously duration-typed (`timedelta64[ns]`, not
`object`). -/
def sampleC7TdDF : RawDF :=
  { cols := ["latitude", "longitude", "time", "tp"],
    rows := [[("latitude", PVal.num 10), ("longitude", PVal.num 20), ("time", PVal.num 1),
      ("tp", PVal.dur 7)]] }

/-- The reshaped result of `sampleC7TdDF`: the `object`-dtype guard does not
fire, `convert_value` is skipped, and `pd.to_numeric` turns the 7-second
Timedelta into 7000000000 nanoseconds — never into 7 seconds. -/
def sampleC7TdOut : MonthlyOut :=
  { rows := [OutRow.mk (PVal.num 10) (PVal.num 20) (PVal.num 1)
      (s2l "total_precipitation") "tp" (PVal.num 7000000000) 2024 3],
    dropped := 0, cols := longColumns,
    latDtype := .float32, lonDtype := .float32, valueDtype := .float32,
    yearDtype := .int16, monthDtype := .int8 }

end Wrangle

-- ### Lemmas and theorems ###

namespace Wrangle

theorem isStart_iff_append {p s : List Char} : isStart p s = true ↔ ∃ t, s = p ++ t := by
  induction p generalizing s with
  | nil => simp [isStart]
  | cons c ps ih =>
    cases s with
    | nil => simp [isStart]
    | cons d ds =>
      simp only [isStart, Bool.and_eq_true, decide_eq_true_eq, ih, List.cons_append,
        List.cons.injEq]
      constructor
      · rintro ⟨rfl, t, rfl⟩; exact ⟨t, rfl, rfl⟩
      · rintro ⟨t, rfl, rfl⟩; exact ⟨rfl, t, rfl⟩

theorem hasSeg_iff {p s : List Char} : hasSeg p s = true ↔ ∃ l r, s = l ++ p ++ r := by
  induction s with
  | nil =>
    simp only [hasSeg, isStart_iff_append]
    constructor
    · rintro ⟨t, ht⟩
      exact ⟨[], t, ht⟩
    · rintro ⟨l, r, h⟩
      rcases l with _ | ⟨c, l⟩
      · exact ⟨r, h⟩
      · simp at h
  | cons c cs ih =>
    simp only [hasSeg, Bool.or_eq_true, isStart_iff_append, ih]
    constructor
    · rintro (⟨t, ht⟩ | ⟨l, r, h⟩)
      · exact ⟨[], t, ht⟩
      · exact ⟨c :: l, r, by simp [h]⟩
    · rintro ⟨l, r, h⟩
      rcases l with _ | ⟨d, l⟩
      · exact Or.inl ⟨r, h⟩
      · simp only [List.cons_append, List.cons.injEq] at h
        exact Or.inr ⟨l, r, h.2⟩

theorem digitChar_toNat {d : Nat} (h : d < 10) : (digitChar d).toNat = 48 + d := by
  interval_cases d <;> decide

theorem isDig_digitChar {d : Nat} (h : d < 10) : isDig (digitChar d) = true := by
  interval_cases d <;> decide

theorem isDig_ne_dot {c : Char} (h : isDig c = true) : c ≠ '.' := by
  rintro rfl; simp [isDig] at h

theorem isDig_ne_underscore {c : Char} (h : isDig c = true) : c ≠ '_' := by
  rintro rfl; simp [isDig] at h

theorem natStrAux_irrel : ∀ f1 f2 n, n < f1 → n < f2 → natStrAux f1 n = natStrAux f2 n := by
  intro f1
  induction f1 with
  | zero => intro f2 n h; omega
  | succ f ih =>
    intro f2 n h1 h2
    cases f2 with
    | zero => omega
    | succ g =>
      simp only [natStrAux]
      by_cases hn : n < 10
      · simp [hn]
      · have hd : n / 10 < n := Nat.div_lt_self (by omega) (by omega)
        simp only [if_neg hn]
        rw [ih g (n / 10) (by omega) (by omega)]

theorem natStr_eq (n : Nat) :
    natStr n = if n < 10 then [digitChar n] else natStr (n / 10) ++ [digitChar (n % 10)] := by
  show natStrAux (n + 1) n = _
  simp only [natStrAux]
  by_cases hn : n < 10
  · simp [hn]
  · have hd : n / 10 < n := Nat.div_lt_self (by omega) (by omega)
    simp only [if_neg hn]
    rw [natStrAux_irrel n (n / 10 + 1) (n / 10) (by omega) (by omega)]
    rfl

theorem natStr_ne_nil (n : Nat) : natStr n ≠ [] := by
  rw [natStr_eq]
  split <;> simp

theorem natStr_all_digits : ∀ n c, c ∈ natStr n → isDig c = true := by
  intro n
  induction n using Nat.strong_induction_on with
  | _ n ih =>
    intro c hc
    rw [natStr_eq] at hc
    by_cases hn : n < 10
    · rw [if_pos hn] at hc
      simp only [List.mem_singleton] at hc
      subst hc
      exact isDig_digitChar hn
    · rw [if_neg hn] at hc
      rcases List.mem_append.mp hc with h | h
      · exact ih (n / 10) (Nat.div_lt_self (by omega) (by omega)) c h
      · simp only [List.mem_singleton] at h
        subst h
        exact isDig_digitChar (Nat.mod_lt _ (by omega))

theorem pad2_all_digits (m : Nat) (c : Char) (hc : c ∈ pad2 m) : isDig c = true := by
  unfold pad2 at hc
  split at hc
  · rcases List.mem_cons.mp hc with rfl | h
    · decide
    · exact natStr_all_digits m c h
  · exact natStr_all_digits m c hc

theorem pnFold_natStr : ∀ n a, pnFold (natStr n) a = a * 10 ^ (natStr n).length + n := by
  intro n
  induction n using Nat.strong_induction_on with
  | _ n ih =>
    intro a
    rw [natStr_eq]
    by_cases hn : n < 10
    · rw [if_pos hn]
      simp only [pnFold, List.foldl_cons, List.foldl_nil, List.length_singleton,
        digitChar_toNat hn]
      omega
    · rw [if_neg hn]
      have hd : n / 10 < n := Nat.div_lt_self (by omega) (by omega)
      simp only [pnFold, List.foldl_append, List.foldl_cons, List.foldl_nil,
        List.length_append, List.length_singleton]
      have := ih (n / 10) hd a
      simp only [pnFold] at this
      rw [this]
      have hm : (digitChar (n % 10)).toNat = 48 + n % 10 := digitChar_toNat (Nat.mod_lt _ (by omega))
      rw [hm]
      have hsub : 48 + n % 10 - 48 = n % 10 := by omega
      rw [hsub]
      have : (a * 10 ^ (natStr (n / 10)).length + n / 10) * 10 + n % 10
          = a * 10 ^ ((natStr (n / 10)).length + 1) + (10 * (n / 10) + n % 10) := by
        ring
      rw [this, Nat.div_add_mod]

theorem parseNat_natStr (n : Nat) : parseNat (natStr n) = some n := by
  unfold parseNat
  rw [if_neg (by simp [List.isEmpty_iff, natStr_ne_nil])]
  rw [if_pos (List.all_eq_true.mpr (fun c hc => natStr_all_digits n c hc))]
  have := pnFold_natStr n 0
  simp only [Nat.zero_mul, Nat.zero_add] at this
  rw [this]

theorem parseNat_pad2 (m : Nat) : parseNat (pad2 m) = some m := by
  unfold pad2
  split
  · unfold parseNat
    rw [if_neg (by simp [List.isEmpty_iff])]
    rw [if_pos]
    · have step : pnFold ('0' :: natStr m) 0 = pnFold (natStr m) 0 := by
        simp [pnFold, List.foldl_cons]
      rw [step]
      have := pnFold_natStr m 0
      simp only [Nat.zero_mul, Nat.zero_add] at this
      rw [this]
    · refine List.all_eq_true.mpr fun c hc => ?_
      rcases List.mem_cons.mp hc with rfl | h
      · decide
      · exact natStr_all_digits m c h
  · exact parseNat_natStr m

theorem stripGribF_irrel : ∀ f1 f2 s, s.length ≤ f1 → s.length ≤ f2 →
    stripGribF f1 s = stripGribF f2 s := by
  intro f1
  induction f1 with
  | zero =>
    intro f2 s h1 _
    have : s = [] := List.length_eq_zero.mp (by omega)
    subst this
    cases f2 <;> rfl
  | succ f ih =>
    intro f2 s h1 h2
    cases s with
    | nil => cases f2 <;> rfl
    | cons c rest =>
      cases f2 with
      | zero => simp at h2
      | succ g =>
        simp only [stripGribF]
        split
        · exact ih g (rest.drop 4) (by simp [List.length_drop] at h1 ⊢; omega)
            (by simp [List.length_drop] at h2 ⊢; omega)
        · rw [ih g rest (by simp at h1; omega) (by simp at h2; omega)]

theorem stripGrib_cons (c : Char) (rest : List Char) :
    stripGrib (c :: rest) =
      if isStart gribExt (c :: rest) then stripGrib (rest.drop 4) else c :: stripGrib rest := by
  show stripGribF (c :: rest).length (c :: rest) = _
  by_cases h : isStart gribExt (c :: rest) = true
  · simp only [List.length_cons, stripGribF, if_pos h]
    exact stripGribF_irrel _ _ _ (by simp only [List.length_drop]; omega) (le_refl _)
  · simp only [List.length_cons, stripGribF, if_neg h]
    rfl

theorem isStart_gribExt_head {c : Char} {l : List Char}
    (h : isStart gribExt (c :: l) = true) : c = '.' := by
  rcases isStart_iff_append.mp h with ⟨t, ht⟩
  simpa [gribExt] using congrArg (fun x => x.headD ' ') ht

theorem stripGrib_append_noDot {a : List Char} (ha : ∀ c ∈ a, c ≠ '.') (b : List Char) :
    stripGrib (a ++ b) = a ++ stripGrib b := by
  induction a with
  | nil => rfl
  | cons c a' ih =>
    rw [List.cons_append, stripGrib_cons]
    rw [if_neg]
    · rw [ih (fun x hx => ha x (List.mem_cons_of_mem c hx))]
      rfl
    · intro hstart
      exact ha c (List.mem_cons_self c a') (isStart_gribExt_head hstart)

theorem stripGrib_append_ext : ∀ {v : List Char}, hasSeg gribExt v = false →
    stripGrib (v ++ gribExt) = v := by
  intro v
  induction v with
  | nil => intro _; decide
  | cons c v' ih =>
    intro hv
    have hv2 : isStart gribExt (c :: v') = false ∧ hasSeg gribExt v' = false := by
      simpa [hasSeg, Bool.or_eq_false_iff] using hv
    rw [List.cons_append, stripGrib_cons]
    rw [if_neg]
    · rw [ih hv2.2]
    · intro hstart
      rcases isStart_iff_append.mp hstart with ⟨t, ht⟩
      have ht2 : (c :: v') ++ gribExt = gribExt ++ t := ht
      have htake := congrArg (List.take 5) ht2
      rw [List.take_append_eq_append_take, List.take_append_eq_append_take] at htake
      have hg5 : gribExt.length = 5 := by decide
      have h5g : (5 : Nat) - gribExt.length = 0 := by decide
      have htg : List.take 5 gribExt = gribExt := by decide
      by_cases hlen : 5 ≤ (c :: v').length
      · have h50 : 5 - (c :: v').length = 0 := by omega
        rw [h50, h5g, List.take_zero, List.take_zero, List.append_nil, List.append_nil,
          htg] at htake
        have hdec : c :: v' = gribExt ++ (c :: v').drop 5 := by
          conv_lhs => rw [← List.take_append_drop 5 (c :: v')]
          rw [htake]
        have hseg : hasSeg gribExt (c :: v') = true :=
          hasSeg_iff.mpr ⟨[], (c :: v').drop 5, by simpa using hdec⟩
        rw [hseg] at hv
        simp at hv
      · have hsle : (c :: v').length ≤ 5 := by omega
        rw [List.take_of_length_le hsle, h5g, List.take_zero, List.append_nil, htg] at htake
        have hk1 : 1 ≤ (c :: v').length := by simp
        have hk4 : (c :: v').length < 5 := by omega
        set k := (c :: v').length with hkdef
        have hs : c :: v' = gribExt.take k := by
          have := congrArg (List.take k) htake
          rw [hkdef] at this
          simpa [List.take_left] using this
        rw [hs] at htake
        interval_cases k <;> exact absurd htake (by decide)

theorem stripGrib_buildFilename {v : List Char} (hv : hasSeg gribExt v = false) (y m : Nat) :
    stripGrib (buildFilename y m v) =
      s2l "era5_" ++ natStr y ++ s2l "_" ++ pad2 m ++ s2l "_" ++ v := by
  have hre : buildFilename y m v =
      (s2l "era5_" ++ natStr y ++ s2l "_" ++ pad2 m ++ s2l "_") ++ (v ++ gribExt) := by
    simp [buildFilename, List.append_assoc]
  rw [hre]
  have ha : ∀ c ∈ s2l "era5_" ++ natStr y ++ s2l "_" ++ pad2 m ++ s2l "_", c ≠ '.' := by
    intro c hc
    simp only [List.append_assoc, List.mem_append] at hc
    rcases hc with h | h | h | h | h
    · have he : s2l "era5_" = ['e', 'r', 'a', '5', '_'] := rfl
      rw [he] at h
      fin_cases h <;> simp
    · exact isDig_ne_dot (natStr_all_digits y c h)
    · have he : s2l "_" = ['_'] := rfl
      rw [he] at h
      fin_cases h
      simp
    · exact isDig_ne_dot (pad2_all_digits m c h)
    · have he : s2l "_" = ['_'] := rfl
      rw [he] at h
      fin_cases h
      simp
  rw [stripGrib_append_noDot ha, stripGrib_append_ext hv]

theorem splitOnC_ne_nil (sep : Char) (l : List Char) : splitOnC sep l ≠ [] := by
  induction l with
  | nil => simp [splitOnC]
  | cons c rest ih =>
    simp only [splitOnC]
    split
    · simp
    · rcases h : splitOnC sep rest with _ | ⟨g, gs⟩
      · simp
      · simp

theorem splitOnC_append_sep {sep : Char} {a : List Char} (ha : ∀ c ∈ a, c ≠ sep) (b : List Char) :
    splitOnC sep (a ++ sep :: b) = a :: splitOnC sep b := by
  induction a with
  | nil => simp [splitOnC]
  | cons c a' ih =>
    have hc : c ≠ sep := ha c (List.mem_cons_self c a')
    have ih' := ih (fun x hx => ha x (List.mem_cons_of_mem c hx))
    show splitOnC sep (c :: (a' ++ sep :: b)) = (c :: a') :: splitOnC sep b
    rw [splitOnC, if_neg hc, ih']

theorem joinWith_splitOnC (sep : Char) : ∀ l, joinWith sep (splitOnC sep l) = l := by
  intro l
  induction l with
  | nil => simp [splitOnC, joinWith]
  | cons c rest ih =>
    simp only [splitOnC]
    by_cases hc : c = sep
    · subst hc
      rw [if_pos rfl]
      rcases h : splitOnC c rest with _ | ⟨g, gs⟩
      · exact absurd h (splitOnC_ne_nil c rest)
      · rw [h] at ih
        simp only [joinWith]
        rw [ih]
        rfl
    · rw [if_neg hc]
      rcases h : splitOnC sep rest with _ | ⟨g, gs⟩
      · exact absurd h (splitOnC_ne_nil sep rest)
      · rw [h] at ih
        rcases gs with _ | ⟨g2, gs2⟩
        · simpa [joinWith] using congrArg (c :: ·) ih
        · simp only [joinWith] at ih ⊢
          rw [List.cons_append, ih]

theorem splitOnC_stripGrib_buildFilename {v : List Char} (hv : hasSeg gribExt v = false)
    (y m : Nat) :
    splitOnC '_' (stripGrib (buildFilename y m v)) =
      s2l "era5" :: natStr y :: pad2 m :: splitOnC '_' v := by
  rw [stripGrib_buildFilename hv]
  have h1 : s2l "era5_" ++ natStr y ++ s2l "_" ++ pad2 m ++ s2l "_" ++ v
      = s2l "era5" ++ '_' :: (natStr y ++ '_' :: (pad2 m ++ '_' :: v)) := by
    simp [s2l, List.append_assoc]
  rw [h1]
  rw [splitOnC_append_sep (by intro c hc; fin_cases hc <;> simp)]
  rw [splitOnC_append_sep (fun c hc => isDig_ne_underscore (natStr_all_digits y c hc))]
  rw [splitOnC_append_sep (fun c hc => isDig_ne_underscore (pad2_all_digits m c hc))]

theorem parseFilename_of_parts {p1 p2 : List Char} {rest : List (List Char)} {name : List Char}
    (h : splitOnC '_' (stripGrib name) = s2l "era5" :: p1 :: p2 :: rest) (hr : rest ≠ [])
    {y m : Nat} (h1 : parseNat p1 = some y) (h2 : parseNat p2 = some m) :
    parseFilename name = some (y, m, joinWith '_' rest) := by
  unfold parseFilename
  rw [h]
  dsimp only
  rw [if_pos ⟨rfl, hr⟩, h1, h2]

theorem parseFilename_buildFilename {v : List Char} (hv : hasSeg gribExt v = false)
    (y m : Nat) : parseFilename (buildFilename y m v) = some (y, m, v) := by
  have := parseFilename_of_parts (splitOnC_stripGrib_buildFilename hv y m)
    (splitOnC_ne_nil '_' v) (parseNat_natStr y) (parseNat_pad2 m)
  rw [this, joinWith_splitOnC]

/-- Claim C4, counterexample.  The claim quantifies over every non-empty
variable string, but the scanner parses with `replace('.grib', '')`, which
removes every occurrence of `'.grib'`, not just the final extension: for
`year = 2024`, `month = 1` (within the claim's ranges) and the non-empty,
underscore-containing variable `"a_b.grib"`, building the filename and
parsing it back yields the different triple `(2024, 1, "a_b")`. -/
theorem c4_counterexample :
    (1900 ≤ 2024 ∧ 2024 ≤ 2026 ∧ 1 ≤ 1 ∧ (1 : Nat) ≤ 12 ∧ s2l "a_b.grib" ≠ [] ∧
      hasSeg (s2l "_") (s2l "a_b.grib") = true) ∧
    parseFilename (buildFilename 2024 1 (s2l "a_b.grib")) = some (2024, 1, s2l "a_b") ∧
    ¬ parseFilename (buildFilename 2024 1 (s2l "a_b.grib")) =
        some (2024, 1, s2l "a_b.grib") := by
  decide

/-- Claim C4 (amended): for every year in `[1900, current_year]`, month in
`[1, 12]`, and non-empty variable string possibly containing the underscore
delimiter *but containing no occurrence of the substring `'.grib'`*,
building `era5_<year>_<month:02d>_<variable>.grib` and parsing it back with
the catalog scanner's rules yields exactly the original triple.  (The
exclusion is forced by the counterexample: `replace('.grib', '')` strips
every occurrence of `'.grib'`, so a variable containing it is mangled.) -/
theorem c4_filename_roundtrip (cy y m : Nat) (v : List Char)
    (_hy1 : 1900 ≤ y) (_hy2 : y ≤ cy) (_hm1 : 1 ≤ m) (_hm2 : m ≤ 12)
    (_hvne : v ≠ []) (hext : hasSeg gribExt v = false) :
    parseFilename (buildFilename y m v) = some (y, m, v) :=
  parseFilename_buildFilename hext y m

/-- Witness for `c4_filename_roundtrip` at `(2024, 1, "2m_temperature")`. -/
theorem c4_filename_roundtrip_witness :
    parseFilename (buildFilename 2024 1 (s2l "2m_temperature")) =
      some (2024, 1, s2l "2m_temperature") :=
  c4_filename_roundtrip 2026 2024 1 (s2l "2m_temperature") (by decide) (by decide)
    (by decide) (by decide) (by decide) (by decide)

theorem mem_insertSorted {a x : Nat} : ∀ {l : List Nat}, a ∈ insertSorted x l ↔ a = x ∨ a ∈ l := by
  intro l
  induction l with
  | nil => simp [insertSorted]
  | cons y ys ih =>
    simp only [insertSorted]
    split
    · simp
    · simp only [List.mem_cons, ih]
      tauto

theorem mem_sortNats {a : Nat} {l : List Nat} : a ∈ sortNats l ↔ a ∈ l := by
  induction l with
  | nil => simp [sortNats]
  | cons x xs ih =>
    show a ∈ insertSorted x (sortNats xs) ↔ _
    rw [mem_insertSorted, ih]
    simp

theorem accept_isSome_iff (cy : Nat) (name : List Char) :
    (acceptFilename cy name).isSome = !specExclusionConditions cy name := by
  unfold acceptFilename specExclusionConditions parseFilename
  rcases hsplit : splitOnC '_' (stripGrib name) with _ | ⟨p0, ps⟩
  · exact absurd hsplit (splitOnC_ne_nil _ _)
  rcases ps with _ | ⟨p1, ps2⟩
  · simp [parseNat]
  rcases ps2 with _ | ⟨p2, rest⟩
  · simp [parseNat]
  rcases rest with _ | ⟨r0, rest2⟩
  · simp
  by_cases hp0 : p0 = s2l "era5"
  · rcases hn1 : parseNat p1 with _ | y
    · simp [hp0, hn1]
    rcases hn2 : parseNat p2 with _ | m
    · simp [hp0, hn1, hn2]
    simp only [hp0, hn1, hn2, rangeOK]
    by_cases h1 : 1900 ≤ y <;> by_cases h2 : y ≤ cy <;> by_cases h3 : 1 ≤ m <;>
      by_cases h4 : m ≤ 12 <;> simp [hn1, hn2, h1, h2, h3, h4]
  · simp [hp0]

/-- Claim C5, counterexample.  The claim states the scanner excludes a file
exactly when one of the listed conditions holds, but the scanner only ever
sees files matching the glob `era5_*.grib`: the file `era5_2024_01_x.nc`
fails none of the listed conditions (prefix `era5`, four segments, integer
year 2024 and month 1 in range) yet is silently excluded from the catalog
because it does not end in `.grib`. -/
theorem c5_counterexample :
    includedFile 2026 (s2l "era5_2024_01_x.nc") = false ∧
    specExclusionConditions 2026 (s2l "era5_2024_01_x.nc") = false ∧
    ¬ (includedFile 2026 (s2l "era5_2024_01_x.nc") = false ↔
        specExclusionConditions 2026 (s2l "era5_2024_01_x.nc") = true) := by
  decide

/-- Claim C5 (amended): a filename is excluded from the catalog exactly when
it fails the `era5_*.grib` glob pre-filter (such files are skipped silently,
without logging) or, for glob-matching files, when one of the claim's listed
conditions holds: first segment differs from `era5`, fewer than four
delimiter-separated segments, non-integer year or month segment, year
outside `[1900, current_year]`, or month outside `[1, 12]` (these are logged,
not raised).  A directory whose files are all excluded — in particular an
empty one — yields an empty catalog rather than an error. -/
theorem c5_scanner_rules (cy : Nat) (names : List (List Char)) (name : List Char) :
    (includedFile cy name = false ↔
      globMatch name = false ∨ specExclusionConditions cy name = true) ∧
    ((∀ n ∈ names, includedFile cy n = false) →
      (discover cy names).years = [] ∧ (discover cy names).vars = [] ∧
        (discover cy names).fileCount = 0 ∧ (discover cy names).rejected =
          names.filter globMatch) := by
  constructor
  · unfold includedFile
    rw [accept_isSome_iff]
    cases hg : globMatch name <;> cases hc : specExclusionConditions cy name <;> simp
  · intro hall
    have hnone : ∀ n ∈ names.filter globMatch, acceptFilename cy n = none := by
      intro n hn
      rcases List.mem_filter.mp hn with ⟨hmem, hglob⟩
      have := hall n hmem
      unfold includedFile at this
      rw [hglob] at this
      simpa [Option.not_isSome_iff_eq_none] using this
    have hacc : (names.filter globMatch).filterMap (acceptFilename cy) = [] :=
      List.filterMap_eq_nil_iff.mpr hnone
    refine ⟨?_, ?_, ?_, ?_⟩
    · show sortNats (((names.filter globMatch).filterMap (acceptFilename cy)).map
        (fun t => t.1)).dedup = []
      rw [hacc]
      rfl
    · show (((names.filter globMatch).filterMap (acceptFilename cy)).map
        (fun t => t.2.2)).dedup = []
      rw [hacc]
      rfl
    · show ((names.filter globMatch).filterMap (acceptFilename cy)).length = 0
      rw [hacc]
      rfl
    · show (names.filter globMatch).filter (fun n => (acceptFilename cy n).isNone) =
        names.filter globMatch
      refine List.filter_eq_self.mpr fun n hn => ?_
      rw [hnone n hn]
      rfl

/-- Witness for `c5_scanner_rules`: one glob-matching but malformed file
(`era5_xx.grib`, only two segments) yields the empty catalog with the file
logged as rejected. -/
theorem c5_scanner_rules_witness :
    (discover 2026 [s2l "era5_xx.grib"]).years = [] ∧
    (discover 2026 [s2l "era5_xx.grib"]).vars = [] ∧
    (discover 2026 [s2l "era5_xx.grib"]).fileCount = 0 ∧
    (discover 2026 [s2l "era5_xx.grib"]).rejected =
      [s2l "era5_xx.grib"].filter globMatch :=
  (c5_scanner_rules 2026 [s2l "era5_xx.grib"] (s2l "era5_xx.grib")).2 (by decide)

theorem length_filter_partition (p : α → Bool) (l : List α) :
    (l.filter p).length + (l.filter (fun a => !p a)).length = l.length := by
  induction l with
  | nil => rfl
  | cons x xs ih =>
    simp only [List.filter_cons]
    cases h : p x <;> simp [h] <;> omega

theorem check_of_mem_availableMonths {fs : FileSys} {y m : Nat} {v : List Char}
    (h : m ∈ availableMonths fs y v) : checkFileExists fs (buildFilename y m v) = true :=
  (List.mem_filter.mp h).2

theorem buildPlan_queue_map_key (fs : FileSys) (years : List Nat) (vars : List (List Char))
    (existing : List (Nat × Nat × List Char)) :
    (buildPlan fs years vars existing).queue.map (fun q => (q.year, q.month, q.varName)) =
      (candidates fs years vars).filter (fun k => decide (k ∉ existing)) := by
  unfold buildPlan candidates
  simp only [List.map_flatMap, List.filter_flatMap]
  refine List.flatMap_congr fun y _ => ?_
  refine List.flatMap_congr fun v _ => ?_
  rw [List.filter_map]
  rw [List.map_map]
  have hinner : (availableMonths fs y v).filter
      (fun m => decide ((y, m, v) ∉ existing) && checkFileExists fs (buildFilename y m v)) =
      (availableMonths fs y v).filter (fun m => decide ((y, m, v) ∉ existing)) := by
    refine List.filter_congr fun m hm => ?_
    rw [check_of_mem_availableMonths hm, Bool.and_true]
  rw [hinner]
  have hcomp : ((fun k => decide (k ∉ existing)) ∘ fun m => ((y, m, v) : Nat × Nat × List Char))
      = fun m => decide ((y, m, v) ∉ existing) := rfl
  rw [hcomp]
  rfl

theorem length_flatMap_congr {α β γ : Type} {f : α → List β} {g : α → List γ} :
    ∀ (l : List α), (∀ x ∈ l, (f x).length = (g x).length) →
      (l.flatMap f).length = (l.flatMap g).length := by
  intro l h
  induction l with
  | nil => rfl
  | cons x xs ih =>
    simp only [List.flatMap_cons, List.length_append]
    rw [h x (List.mem_cons_self x xs), ih (fun a ha => h a (List.mem_cons_of_mem _ ha))]

theorem buildPlan_skipped_eq (fs : FileSys) (years : List Nat) (vars : List (List Char))
    (existing : List (Nat × Nat × List Char)) :
    (buildPlan fs years vars existing).skipped =
      ((candidates fs years vars).filter (fun k => decide (k ∈ existing))).length := by
  unfold buildPlan candidates
  simp only [List.filter_flatMap]
  refine length_flatMap_congr _ fun y _ => ?_
  refine length_flatMap_congr _ fun v _ => ?_
  rw [List.filter_map, List.length_map]
  rfl

theorem buildPlan_missing_eq_zero (fs : FileSys) (years : List Nat) (vars : List (List Char))
    (existing : List (Nat × Nat × List Char)) :
    (buildPlan fs years vars existing).missing = 0 := by
  unfold buildPlan
  have hnil : (years.flatMap fun y => vars.flatMap fun v =>
      (availableMonths fs y v).filter fun m =>
        decide ((y, m, v) ∉ existing) && !checkFileExists fs (buildFilename y m v)) = [] := by
    refine List.flatMap_eq_nil_iff.mpr fun y _ => ?_
    refine List.flatMap_eq_nil_iff.mpr fun v _ => ?_
    refine List.filter_eq_nil_iff.mpr fun m hm => ?_
    rw [check_of_mem_availableMonths hm]
    simp
  simp only [hnil, List.length_nil]

theorem mem_buildPlan_queue {fs : FileSys} {years : List Nat} {vars : List (List Char)}
    {existing : List (Nat × Nat × List Char)} {q : QItem} :
    q ∈ (buildPlan fs years vars existing).queue ↔
      ∃ y ∈ years, ∃ v ∈ vars, ∃ m ∈ availableMonths fs y v,
        (y, m, v) ∉ existing ∧ q = QItem.mk (buildFilename y m v) v y m := by
  unfold buildPlan
  simp only [List.mem_flatMap, List.mem_map, List.mem_filter, Bool.and_eq_true,
    decide_eq_true_eq]
  constructor
  · rintro ⟨y, hy, v, hv, m, ⟨⟨hm, hnotin, _⟩, rfl⟩⟩
    exact ⟨y, hy, v, hv, m, hm, hnotin, rfl⟩
  · rintro ⟨y, hy, v, hv, m, hm, hnotin, rfl⟩
    exact ⟨y, hy, v, hv, m, ⟨⟨hm, hnotin, check_of_mem_availableMonths hm⟩, rfl⟩⟩

/-- Claim C2, counterexample.  The claim says a unit whose file is at most
1024 bytes is counted as missing rather than enqueued.  In the code, the
missing counter only fires when `check_file_exists` fails for a month that
`get_available_months_for_year_variable` just reported available — the same
check on the same unchanged directory — so over a static directory such
units are silently dropped from the candidate months and the missing counter
stays `0`: here `era5_2024_01_temp.grib` exists with 500 ≤ 1024 bytes, is
not enqueued, and yet `files_missing = 0` (and `files_skipped = 0`), not the
claimed count of 1. -/
theorem c2_counterexample :
    fileSizeOf [(s2l "era5_2024_01_temp.grib", 500)] (s2l "era5_2024_01_temp.grib")
        = some 500 ∧
    (500 : Nat) ≤ 1024 ∧
    (buildPlan [(s2l "era5_2024_01_temp.grib", 500)] [2024] [s2l "temp"] []).queue = [] ∧
    (buildPlan [(s2l "era5_2024_01_temp.grib", 500)] [2024] [s2l "temp"] []).skipped = 0 ∧
    ¬ 1 ≤ (buildPlan [(s2l "era5_2024_01_temp.grib", 500)] [2024] [s2l "temp"] []).missing := by
  decide

/-- Claim C2 (amended): over the candidate units — the `(year, month,
variable)` triples from discovered years × discovered variables whose
zero-padded file exists and exceeds 1024 bytes — the planner counts exactly
the K candidates whose key is in the existing set as skipped-existing and
enqueues exactly the N−K others (their keys, in order); units whose file is
absent or at most 1024 bytes are excluded during the availability scan and
are never enqueued, but they are not counted: the planner's missing counter
stays 0 over an unchanging directory (it only re-checks files already
reported available).  Every enqueued unit's file passes the size check. -/
theorem c2_planner_completeness (fs : FileSys) (years : List Nat) (vars : List (List Char))
    (existing : List (Nat × Nat × List Char)) :
    (buildPlan fs years vars existing).skipped =
      ((candidates fs years vars).filter (fun k => decide (k ∈ existing))).length ∧
    (buildPlan fs years vars existing).queue.length =
      (candidates fs years vars).length -
        ((candidates fs years vars).filter (fun k => decide (k ∈ existing))).length ∧
    (buildPlan fs years vars existing).queue.map (fun q => (q.year, q.month, q.varName)) =
      (candidates fs years vars).filter (fun k => decide (k ∉ existing)) ∧
    (buildPlan fs years vars existing).missing = 0 ∧
    (∀ q ∈ (buildPlan fs years vars existing).queue, checkFileExists fs q.path = true) := by
  refine ⟨buildPlan_skipped_eq fs years vars existing, ?_, buildPlan_queue_map_key fs years vars existing,
    buildPlan_missing_eq_zero fs years vars existing, ?_⟩
  · have hlen : (buildPlan fs years vars existing).queue.length =
        ((candidates fs years vars).filter (fun k => decide (k ∉ existing))).length := by
      rw [← buildPlan_queue_map_key fs years vars existing, List.length_map]
    have hpart := length_filter_partition (fun k => decide (k ∈ existing)) (candidates fs years vars)
    have hnotc : ((candidates fs years vars).filter fun k =>
        !decide (k ∈ existing)) = (candidates fs years vars).filter fun k =>
        decide (k ∉ existing) := by
      refine List.filter_congr fun k _ => ?_
      simp
    rw [hnotc] at hpart
    omega
  · intro q hq
    rcases mem_buildPlan_queue.mp hq with ⟨y, _, v, _, m, hm, _, rfl⟩
    exact check_of_mem_availableMonths hm

theorem noDot_buildHead (y m : Nat) :
    ∀ c ∈ s2l "era5_" ++ natStr y ++ s2l "_" ++ pad2 m ++ s2l "_", c ≠ '.' := by
  intro c hc
  simp only [List.append_assoc, List.mem_append] at hc
  rcases hc with h | h | h | h | h
  · have he : s2l "era5_" = ['e', 'r', 'a', '5', '_'] := rfl
    rw [he] at h
    fin_cases h <;> simp
  · exact isDig_ne_dot (natStr_all_digits y c h)
  · have he : s2l "_" = ['_'] := rfl
    rw [he] at h
    fin_cases h
    simp
  · exact isDig_ne_dot (pad2_all_digits m c h)
  · have he : s2l "_" = ['_'] := rfl
    rw [he] at h
    fin_cases h
    simp

theorem stripGrib_buildFilename_any (y m : Nat) (v : List Char) :
    stripGrib (buildFilename y m v) =
      s2l "era5_" ++ natStr y ++ s2l "_" ++ pad2 m ++ s2l "_" ++ stripGrib (v ++ gribExt) := by
  have hre : buildFilename y m v =
      (s2l "era5_" ++ natStr y ++ s2l "_" ++ pad2 m ++ s2l "_") ++ (v ++ gribExt) := by
    simp [buildFilename, List.append_assoc]
  rw [hre, stripGrib_append_noDot (noDot_buildHead y m)]

theorem splitOnC_stripGrib_buildFilename_any (y m : Nat) (v : List Char) :
    splitOnC '_' (stripGrib (buildFilename y m v)) =
      s2l "era5" :: natStr y :: pad2 m :: splitOnC '_' (stripGrib (v ++ gribExt)) := by
  rw [stripGrib_buildFilename_any]
  have h1 : s2l "era5_" ++ natStr y ++ s2l "_" ++ pad2 m ++ s2l "_" ++ stripGrib (v ++ gribExt)
      = s2l "era5" ++ '_' :: (natStr y ++ '_' :: (pad2 m ++ '_' :: stripGrib (v ++ gribExt))) := by
    simp [s2l, List.append_assoc]
  rw [h1]
  rw [splitOnC_append_sep (by intro c hc; fin_cases hc <;> simp)]
  rw [splitOnC_append_sep (fun c hc => isDig_ne_underscore (natStr_all_digits y c hc))]
  rw [splitOnC_append_sep (fun c hc => isDig_ne_underscore (pad2_all_digits m c hc))]

theorem parseFilename_buildFilename_any (y m : Nat) (v : List Char) :
    parseFilename (buildFilename y m v) =
      some (y, m, joinWith '_' (splitOnC '_' (stripGrib (v ++ gribExt)))) :=
  parseFilename_of_parts (splitOnC_stripGrib_buildFilename_any y m v)
    (splitOnC_ne_nil '_' _) (parseNat_natStr y) (parseNat_pad2 m)

theorem mem_discover_years {cy : Nat} {names : List (List Char)} {y : Nat} :
    y ∈ (discover cy names).years ↔
      ∃ n ∈ names, globMatch n = true ∧
        ∃ m v, acceptFilename cy n = some (y, m, v) := by
  show y ∈ sortNats (((names.filter globMatch).filterMap (acceptFilename cy)).map
    (fun t => t.1)).dedup ↔ _
  rw [mem_sortNats, List.mem_dedup]
  simp only [List.mem_map, List.mem_filterMap, List.mem_filter]
  constructor
  · rintro ⟨⟨y2, m2, v2⟩, ⟨n, ⟨hn, hg⟩, hacc⟩, rfl⟩
    exact ⟨n, hn, hg, m2, v2, hacc⟩
  · rintro ⟨n, hn, hg, m2, v2, hacc⟩
    exact ⟨(y, m2, v2), ⟨n, ⟨hn, hg⟩, hacc⟩, rfl⟩

theorem mem_discover_vars {cy : Nat} {names : List (List Char)} {v : List Char} :
    v ∈ (discover cy names).vars ↔
      ∃ n ∈ names, globMatch n = true ∧
        ∃ y m, acceptFilename cy n = some (y, m, v) := by
  show v ∈ (((names.filter globMatch).filterMap (acceptFilename cy)).map
    (fun t => t.2.2)).dedup ↔ _
  rw [List.mem_dedup]
  simp only [List.mem_map, List.mem_filterMap, List.mem_filter]
  constructor
  · rintro ⟨⟨y2, m2, v2⟩, ⟨n, ⟨hn, hg⟩, hacc⟩, rfl⟩
    exact ⟨n, hn, hg, y2, m2, hacc⟩
  · rintro ⟨n, hn, hg, y2, m2, hacc⟩
    exact ⟨(y2, m2, v), ⟨n, ⟨hn, hg⟩, hacc⟩, rfl⟩

/-- Claim C10: discovery and planning disagree on month formatting.  For a
source file whose name parses (so discovery adds its year and variable to
the catalog once it matches the glob and passes range validation) but whose
month segment is not the two-digit zero-padded rendering of the parsed
month (for example `era5_2024_1_temp.grib`), the planner — which probes
only the zero-padded reconstruction `era5_{year}_{month:02d}_{variable}.grib`
— can never place that filename in the queue, in any run, with any existing
index: every queued path is such a reconstruction, whose month segment is
always `pad2` of its month. -/
theorem c10_month_format_mismatch (cy : Nat) (fs : FileSys) (names : List (List Char))
    (name : List Char) (y m : Nat) (v : List Char)
    (hmem : name ∈ names) (hglob : globMatch name = true)
    (hparse : parseFilename name = some (y, m, v))
    (hrange : rangeOK cy y m = true)
    (hseg : (splitOnC '_' (stripGrib name)).getD 2 [] ≠ pad2 m) :
    (y ∈ (discover cy names).years ∧ v ∈ (discover cy names).vars) ∧
    ∀ (years : List Nat) (vars : List (List Char))
      (existing : List (Nat × Nat × List Char)),
      ∀ q ∈ (buildPlan fs years vars existing).queue, q.path ≠ name := by
  have hacc : acceptFilename cy name = some (y, m, v) := by
    unfold acceptFilename
    rw [hparse]
    dsimp only
    rw [if_pos hrange]
  constructor
  · exact ⟨mem_discover_years.mpr ⟨name, hmem, hglob, m, v, hacc⟩,
      mem_discover_vars.mpr ⟨name, hmem, hglob, y, m, hacc⟩⟩
  · intro years vars existing q hq heq
    rcases mem_buildPlan_queue.mp hq with ⟨y2, _, v2, _, m2, _, _, rfl⟩
    simp only at heq
    -- `heq : buildFilename y2 m2 v2 = name`
    have hparse2 := parseFilename_buildFilename_any y2 m2 v2
    rw [heq, hparse] at hparse2
    have hm2 : m = m2 := by
      have := (Option.some.injEq _ _).mp hparse2
      exact (congrArg (fun t => t.2.1) this)
    have hsplit2 := splitOnC_stripGrib_buildFilename_any y2 m2 v2
    rw [heq] at hsplit2
    apply hseg
    rw [hsplit2, hm2]
    rfl

/-- Witness for `c10_month_format_mismatch`: the directory holds only
`era5_2024_1_temp.grib` (5000 bytes); discovery reports year 2024 and
variable `temp`, yet no plan over this directory ever queues that path. -/
theorem c10_month_format_mismatch_witness :
    (2024 ∈ (discover 2026 [s2l "era5_2024_1_temp.grib"]).years ∧
      s2l "temp" ∈ (discover 2026 [s2l "era5_2024_1_temp.grib"]).vars) ∧
    ∀ (years : List Nat) (vars : List (List Char))
      (existing : List (Nat × Nat × List Char)),
      ∀ q ∈ (buildPlan [(s2l "era5_2024_1_temp.grib", 5000)] years vars existing).queue,
        q.path ≠ s2l "era5_2024_1_temp.grib" :=
  c10_month_format_mismatch 2026 [(s2l "era5_2024_1_temp.grib", 5000)]
    [s2l "era5_2024_1_temp.grib"] (s2l "era5_2024_1_temp.grib") 2024 1 (s2l "temp")
    (by decide) (by decide) (by decide) (by decide) (by decide)

theorem mem_existingKeys {α : Type} {sink : List (SinkRow α)} {k : Nat × Nat × List Char} :
    k ∈ existingKeys sink ↔ ∃ r ∈ sink, keyOf r = k := by
  simp [existingKeys, List.mem_dedup, List.mem_map]

theorem runPipeline_stable {α : Type} (cy : Nat) (fs : FileSys)
    (t : Nat → Nat → List Char → List α) (s : List (SinkRow α)) :
    runPipeline cy fs t (runPipeline cy fs t s) = runPipeline cy fs t s := by
  set ys := (discover cy (fs.map fun p => p.1)).years with hys
  set vs := (discover cy (fs.map fun p => p.1)).vars with hvs
  set wrap : QItem → List (SinkRow α) :=
    fun q => (t q.year q.month q.varName).map fun a =>
      SinkRow.mk q.year q.month q.varName a with hwrap
  have hrun : ∀ sink : List (SinkRow α), runPipeline cy fs t sink =
      sink ++ (buildPlan fs ys vs (existingKeys sink)).queue.flatMap wrap := fun sink => rfl
  set s1 := s ++ (buildPlan fs ys vs (existingKeys s)).queue.flatMap wrap with hs1
  rw [hrun s, ← hs1, hrun s1]
  have hsub : ∀ k, k ∈ existingKeys s → k ∈ existingKeys s1 := by
    intro k hk
    rcases mem_existingKeys.mp hk with ⟨r, hr, rfl⟩
    exact mem_existingKeys.mpr ⟨r, List.mem_append_left _ hr, rfl⟩
  have hnew : ∀ q ∈ (buildPlan fs ys vs (existingKeys s)).queue,
      t q.year q.month q.varName ≠ [] →
      (q.year, q.month, q.varName) ∈ existingKeys s1 := by
    intro q hq hne
    rcases List.exists_mem_of_ne_nil _ hne with ⟨a, ha⟩
    refine mem_existingKeys.mpr ⟨SinkRow.mk q.year q.month q.varName a, ?_, rfl⟩
    refine List.mem_append_right _ ?_
    refine List.mem_flatMap.mpr ⟨q, hq, ?_⟩
    rw [hwrap]
    exact List.mem_map.mpr ⟨a, ha, rfl⟩
  suffices hQ2 : (buildPlan fs ys vs (existingKeys s1)).queue.flatMap wrap = [] by
    rw [hQ2, List.append_nil]
  refine List.flatMap_eq_nil_iff.mpr fun q hq => ?_
  rcases mem_buildPlan_queue.mp hq with ⟨y, hy, v, hv, m, hm, hnotin2, rfl⟩
  rcases eq_or_ne (t y m v) [] with ht | ht
  · rw [hwrap]
    dsimp only
    rw [ht]
    rfl
  · exfalso
    have hq1 : QItem.mk (buildFilename y m v) v y m ∈
        (buildPlan fs ys vs (existingKeys s)).queue := by
      refine mem_buildPlan_queue.mpr ⟨y, hy, v, hv, m, hm, fun hk => hnotin2 (hsub _ hk), rfl⟩
    exact hnotin2 (hnew _ hq1 (by simpa using ht))

/-- Claim C1: idempotence.  Running the consolidation a second time over the
same source directory and the sink produced by the first run appends no rows
(the sink after run 2 equals, row for row, the sink after run 1 — for any
starting sink, so in particular a fresh one); equivalently, every
`(year, month, variable)` key readable from the sink's identity columns is
skipped by the planner and never re-appended.  `t` is the (deterministic)
per-unit decode-and-reshape; appended rows carry their unit's key because
the transform assigns `variable_name`, `year`, `month` as constant columns. -/
theorem c1_pipeline_idempotent {α : Type} (cy : Nat) (fs : FileSys)
    (t : Nat → Nat → List Char → List α) (s : List (SinkRow α)) :
    runPipeline cy fs t (runPipeline cy fs t s) = runPipeline cy fs t s ∧
    ∀ q ∈ (buildPlan fs (discover cy (fs.map fun p => p.1)).years
        (discover cy (fs.map fun p => p.1)).vars (existingKeys s)).queue,
      (q.year, q.month, q.varName) ∉ existingKeys s := by
  refine ⟨runPipeline_stable cy fs t s, fun q hq => ?_⟩
  rcases mem_buildPlan_queue.mp hq with ⟨y, _, v, _, m, _, hnotin, rfl⟩
  exact hnotin

/-- Claim C3: ingestion-index fallback.  `get_existing_data_index` returns
the empty key set when the sink is absent (with the fresh-start notice) and
the empty key set with the distinguishable read-failure notice when the sink
exists but reading its identity columns fails for any reason; it never
raises (it is a total function, every branch returning normally); and on a
successful read it returns exactly the distinct `(year, month,
variable_name)` triples present in the sink. -/
theorem c3_index_fallback (α : Type) (msg : String) (rows : List (SinkRow α)) :
    getExistingDataIndex (SinkState.absent : SinkState α) = ([], [IndexNotice.freshStart]) ∧
    getExistingDataIndex (SinkState.corrupt msg : SinkState α) =
      ([], [IndexNotice.readFailed]) ∧
    IndexNotice.readFailed ≠ IndexNotice.freshStart ∧
    (∀ k, k ∈ (getExistingDataIndex (SinkState.avail rows)).1 ↔ ∃ r ∈ rows, keyOf r = k) ∧
    (getExistingDataIndex (SinkState.avail rows)).1.Nodup := by
  refine ⟨rfl, rfl, by decide, ?_, ?_⟩
  · intro k
    show k ∈ (rows.map keyOf).dedup ↔ _
    rw [List.mem_dedup]
    simp [List.mem_map]
  · exact List.nodup_dedup _

theorem commitAll_some {α : Type} :
    ∀ (batches : List (List (SinkRow α))) (rows : List (SinkRow α)),
    (∀ b ∈ batches, b ≠ []) →
    commitAll batches (some rows) =
      (some (rows ++ batches.flatten),
       batches.map fun b => WriteEvent.appendNoHeader b.length) := by
  intro batches
  induction batches with
  | nil => intro rows _; simp [commitAll]
  | cons b rest ih =>
    intro rows hne
    have hb : b ≠ [] := hne b (List.mem_cons_self b rest)
    have hstep : appendToOutputFile b (some rows) =
        (some (rows ++ b), some (WriteEvent.appendNoHeader b.length)) := by
      unfold appendToOutputFile
      rw [if_neg (by simpa [List.isEmpty_iff] using hb)]
    show (let step := appendToOutputFile b (some rows)
          let next := commitAll rest step.1
          (next.1, step.2.toList ++ next.2)) = _
    rw [hstep]
    dsimp only
    rw [ih (rows ++ b) (fun x hx => hne x (List.mem_cons_of_mem b hx))]
    simp [List.append_assoc]

/-- Claim C8: sink-writer header discipline.  For a non-empty committed
batch, the write is a header-bearing creation exactly when the sink does not
exist, and a header-less append exactly when it does; appends extend the
sink's rows in place (the fixed positional column layout is the `SinkRow`
structure itself); and across a run starting with an absent sink, the first
committed batch creates the sink with a header while every subsequent batch
appends without one. -/
theorem c8_sink_writer {α : Type} (df b : List (SinkRow α))
    (sink : Option (List (SinkRow α))) (rest : List (List (SinkRow α)))
    (hdf : df ≠ []) (hb : b ≠ []) (hrest : ∀ x ∈ rest, x ≠ []) :
    (((appendToOutputFile df sink).2 = some (WriteEvent.createWithHeader df.length)) ↔
      sink = none) ∧
    (((appendToOutputFile df sink).2 = some (WriteEvent.appendNoHeader df.length)) ↔
      sink ≠ none) ∧
    (∀ rows, (appendToOutputFile df (some rows)).1 = some (rows ++ df)) ∧
    ((commitAll (b :: rest) none).2 =
      WriteEvent.createWithHeader b.length ::
        rest.map (fun x => WriteEvent.appendNoHeader x.length)) ∧
    ((commitAll (b :: rest) none).1 = some (b ++ rest.flatten)) := by
  have hdf2 : df.isEmpty = false := by simpa [List.isEmpty_iff] using hdf
  have hstep0 : appendToOutputFile b (none : Option (List (SinkRow α))) =
      (some b, some (WriteEvent.createWithHeader b.length)) := by
    unfold appendToOutputFile
    rw [if_neg (by simpa [List.isEmpty_iff] using hb)]
  have hcommit : commitAll (b :: rest) (none : Option (List (SinkRow α))) =
      (some (b ++ rest.flatten),
       WriteEvent.createWithHeader b.length ::
         rest.map fun x => WriteEvent.appendNoHeader x.length) := by
    show (let step := appendToOutputFile b none
          let next := commitAll rest step.1
          (next.1, step.2.toList ++ next.2)) = _
    rw [hstep0]
    dsimp only
    rw [commitAll_some rest b hrest]
    simp
  refine ⟨?_, ?_, ?_, ?_, ?_⟩
  · cases sink <;> simp [appendToOutputFile, hdf2]
  · cases sink <;> simp [appendToOutputFile, hdf2]
  · intro rows
    simp [appendToOutputFile, hdf2]
  · rw [hcommit]
  · rw [hcommit]

/-- Witness for `c8_sink_writer`: two one-row batches against an initially
absent sink produce one header-bearing creation followed by one header-less
append. -/
theorem c8_sink_writer_witness :
    (((appendToOutputFile [SinkRow.mk 2024 1 (s2l "temp") (0 : Int)] none).2 =
      some (WriteEvent.createWithHeader 1)) ↔
      (none : Option (List (SinkRow Int))) = none) ∧
    (((appendToOutputFile [SinkRow.mk 2024 1 (s2l "temp") (0 : Int)] none).2 =
      some (WriteEvent.appendNoHeader 1)) ↔
      (none : Option (List (SinkRow Int))) ≠ none) ∧
    (∀ rows, (appendToOutputFile [SinkRow.mk 2024 1 (s2l "temp") (0 : Int)] (some rows)).1 =
      some (rows ++ [SinkRow.mk 2024 1 (s2l "temp") (0 : Int)])) ∧
    ((commitAll [[SinkRow.mk 2024 1 (s2l "temp") (0 : Int)],
        [SinkRow.mk 2024 2 (s2l "temp") (0 : Int)]] none).2 =
      WriteEvent.createWithHeader 1 ::
        [[SinkRow.mk 2024 2 (s2l "temp") (0 : Int)]].map
          (fun x => WriteEvent.appendNoHeader x.length)) ∧
    ((commitAll [[SinkRow.mk 2024 1 (s2l "temp") (0 : Int)],
        [SinkRow.mk 2024 2 (s2l "temp") (0 : Int)]] none).1 =
      some ([SinkRow.mk 2024 1 (s2l "temp") (0 : Int)] ++
        [[SinkRow.mk 2024 2 (s2l "temp") (0 : Int)]].flatten)) :=
  c8_sink_writer [SinkRow.mk 2024 1 (s2l "temp") (0 : Int)]
    [SinkRow.mk 2024 1 (s2l "temp") (0 : Int)] none
    [[SinkRow.mk 2024 2 (s2l "temp") (0 : Int)]]
    (by decide) (by decide) (by decide)

/-- Claim C9: the failure branch of the per-unit worker is unreachable.
`load_grib_to_long_format` catches every exception internally (its entire
body sits in one `try/except` returning the empty frame), so
`process_single_file` always reports success; a decode error therefore
reaches the coordinator as a successful-but-empty result, classified as
"empty result" and never as "failed". -/
theorem c9_worker_never_fails (raw : Except String RawDF) (v : List Char) (y m : Nat)
    (e : String) :
    (processSingleFile raw v y m).1 = true ∧
    loadGribMain (Except.error e) v y m = [] ∧
    processSingleFile (Except.error e) v y m = (true, []) ∧
    classifyResult (processSingleFile (Except.error e) v y m).1
        (processSingleFile (Except.error e) v y m).2 = Outcome.emptyResult ∧
    classifyResult (processSingleFile (Except.error e) v y m).1
        (processSingleFile (Except.error e) v y m).2 ≠ Outcome.failed := by
  refine ⟨rfl, rfl, rfl, ?_, ?_⟩
  · show classifyResult true [] = Outcome.emptyResult
    simp [classifyResult]
  · show classifyResult true [] ≠ Outcome.failed
    simp [classifyResult]

theorem mem_variableColumnsOf {df : RawDF} {c : String} :
    c ∈ variableColumnsOf df ↔ c ∈ df.cols ∧ c ∉ potentialCoordinateColumns := by
  unfold variableColumnsOf coordinateColumnsOf
  simp only [List.mem_filter, decide_eq_true_eq]
  tauto

theorem mem_meltAssign {df : RawDF} {v : List Char} {y m : Nat} {o : OutRow} :
    o ∈ meltAssign df v y m ↔ ∃ c ∈ variableColumnsOf df, ∃ r ∈ df.rows,
      o = { lat := getCell r "latitude", lon := getCell r "longitude",
            tm := getCell r (timeColOf df), varName := v, gribVar := c,
            value := getCell r c, year := y, month := m } := by
  unfold meltAssign
  simp only [List.mem_flatMap, List.mem_map]
  constructor
  · rintro ⟨c, hc, r, hr, rfl⟩
    exact ⟨c, hc, r, hr, rfl⟩
  · rintro ⟨c, hc, r, hr, rfl⟩
    exact ⟨c, hc, r, hr, rfl⟩

theorem toNumericColumn_rows1Of_eq (rows : List OutRow) :
    toNumericColumn (rows1Of rows) =
      rows.map (fun o => { o with value := colCoerce rows o.value }) := by
  unfold toNumericColumn colCoerce coercedValue
  cases htd : valueColumnIsTimedelta (rows1Of rows)
  · simp only [Bool.false_eq_true, if_false]
    unfold rows1Of
    cases hobj : valueColumnIsObject rows
    · simp only [Bool.false_eq_true, if_false]
    · simp only [if_pos]
      rw [List.map_map]
      rfl
  · simp only [if_pos]
    unfold rows1Of
    cases hobj : valueColumnIsObject rows
    · simp only [Bool.false_eq_true, if_false]
    · simp only [if_pos]
      rw [List.map_map]
      rfl

theorem processValues_fst (rows : List OutRow) :
    (processValues rows).1 =
      (rows.map (fun o => { o with value := colCoerce rows o.value })).filter
        (fun o => decide (o.value ≠ PVal.nan)) := by
  unfold processValues
  dsimp only
  rw [toNumericColumn_rows1Of_eq]

theorem processValues_src {rows : List OutRow} {o : OutRow}
    (h : o ∈ (processValues rows).1) :
    ∃ o0 ∈ rows,
      o = { o0 with value := colCoerce rows o0.value } ∧ o.value ≠ PVal.nan := by
  rw [processValues_fst] at h
  have hne : o.value ≠ PVal.nan := by simpa using (List.mem_filter.mp h).2
  rcases List.mem_map.mp (List.mem_of_mem_filter h) with ⟨o0, ho0, rfl⟩
  exact ⟨o0, ho0, rfl, hne⟩

theorem processValues_mem_of {rows : List OutRow} {o0 : OutRow} (h : o0 ∈ rows)
    (hval : colCoerce rows o0.value ≠ PVal.nan) :
    { o0 with value := colCoerce rows o0.value } ∈ (processValues rows).1 := by
  rw [processValues_fst]
  exact List.mem_filter.mpr ⟨List.mem_map.mpr ⟨o0, h, rfl⟩, by simpa using hval⟩

theorem dropped_of_map (g : OutRow → OutRow) (rows : List OutRow) :
    (rows.map g).length -
        ((rows.map g).filter (fun o => decide (o.value ≠ PVal.nan))).length
      = (rows.filter (fun o => decide ((g o).value = PVal.nan))).length := by
  have hpart := length_filter_partition (fun o => decide (o.value ≠ PVal.nan)) (rows.map g)
  have hne : ((rows.map g).filter fun o => !decide (o.value ≠ PVal.nan)) =
      ((rows.map g).filter fun o => decide (o.value = PVal.nan)) := by
    refine List.filter_congr fun o _ => by simp
  have hfm : ((rows.map g).filter fun o => decide (o.value = PVal.nan)) =
      (rows.filter fun o => decide ((g o).value = PVal.nan)).map g := by
    rw [List.filter_map]
    rfl
  rw [hne, hfm, List.length_map] at hpart
  omega

theorem processValues_dropped_eq (rows : List OutRow) :
    (processValues rows).2 = (rows.filter (fun o =>
      decide (colCoerce rows o.value = PVal.nan))).length := by
  unfold processValues
  dsimp only
  rw [toNumericColumn_rows1Of_eq]
  exact dropped_of_map _ rows

theorem processValues_length (rows : List OutRow) :
    (processValues rows).2 + (processValues rows).1.length = rows.length := by
  unfold processValues
  dsimp only
  rw [toNumericColumn_rows1Of_eq]
  have hlen : (rows.map (fun o => { o with value := colCoerce rows o.value })).length
      = rows.length := List.length_map _ _
  have hfle := List.length_filter_le (fun o => decide (o.value ≠ PVal.nan))
    (rows.map (fun o => { o with value := colCoerce rows o.value }))
  omega

theorem loadGribMonthly_eq {df : RawDF} {v : List Char} {y m : Nat} {out : MonthlyOut}
    (hout : loadGribMonthly (Except.ok df) v y m = some out) :
    variableColumnsOf df ≠ [] ∧
    ("latitude" ∈ df.cols ∧ "longitude" ∈ df.cols ∧ timeColOf df ∈ df.cols) ∧
    out = { rows := (processValues ((meltAssign df v y m).map coerceLatLon)).1,
            dropped := (processValues ((meltAssign df v y m).map coerceLatLon)).2,
            cols := longColumns,
            latDtype := .float32, lonDtype := .float32,
            valueDtype := if (processValues ((meltAssign df v y m).map coerceLatLon)).1 ≠ []
              then .float32 else .float64,
            yearDtype := if (processValues ((meltAssign df v y m).map coerceLatLon)).1 ≠ []
              then .int16 else .int64,
            monthDtype := if (processValues ((meltAssign df v y m).map coerceLatLon)).1 ≠ []
              then .int8 else .int64 } := by
  unfold loadGribMonthly at hout
  dsimp only at hout
  split at hout
  · exact absurd hout (by simp)
  · split at hout
    · exact absurd hout (by simp)
    · rename_i h1 h2
      refine ⟨h1, not_not.mp h2, ?_⟩
      exact (Option.some.injEq _ _).mp hout.symm

theorem rows1Of_of_obj {rows : List OutRow} (hobj : valueColumnIsObject rows = true) :
    rows1Of rows = rows.map (fun o => { o with value := convertValue o.value }) := by
  simp [rows1Of, hobj]

theorem rows1Of_of_not_obj {rows : List OutRow} (hobj : valueColumnIsObject rows = false) :
    rows1Of rows = rows := by
  simp [rows1Of, hobj]

theorem td_false_of_obj {rows : List OutRow} (hobj : valueColumnIsObject rows = true) :
    valueColumnIsTimedelta (rows1Of rows) = false := by
  rw [rows1Of_of_obj hobj]
  unfold valueColumnIsTimedelta
  have hany : ((rows.map fun o => { o with value := convertValue o.value }).any
      fun o => isDurCell o.value) = false := by
    rw [List.any_map, List.any_eq_false]
    intro o0 _
    simp only [Function.comp]
    cases h : o0.value <;> simp [h, convertValue, isDurCell]
  rw [hany, Bool.false_and]

theorem td_true_of_not_obj_dur {rows : List OutRow} (hobj : valueColumnIsObject rows = false)
    {o : OutRow} (ho : o ∈ rows) {s : Int} (hs : o.value = PVal.dur s) :
    valueColumnIsTimedelta (rows1Of rows) = true := by
  rw [rows1Of_of_not_obj hobj]
  unfold valueColumnIsObject at hobj
  rw [Bool.or_eq_false_iff] at hobj
  obtain ⟨htxt, hmix⟩ := hobj
  have hdur : (rows.any fun o2 => isDurCell o2.value) = true :=
    List.any_eq_true.mpr ⟨o, ho, by simp [hs, isDurCell]⟩
  rw [Bool.and_eq_false_iff] at hmix
  have hnum : (rows.any fun o2 => isNumCell o2.value) = false := by
    rcases hmix with h | h
    · exact absurd hdur (by simp [h])
    · exact h
  unfold valueColumnIsTimedelta
  rw [Bool.and_eq_true]
  refine ⟨hdur, List.all_eq_true.mpr fun o2 ho2 => ?_⟩
  cases hv : o2.value
  · have hc : (rows.any fun o3 => isNumCell o3.value) = true :=
      List.any_eq_true.mpr ⟨o2, ho2, by simp [hv, isNumCell]⟩
    rw [hnum] at hc
    simp at hc
  · simp [hv, isDurCell]
  · simp [hv]
  · have hc : (rows.any fun o3 => isTxtCell o3.value) = true :=
      List.any_eq_true.mpr ⟨o2, ho2, by simp [hv, isTxtCell]⟩
    rw [htxt] at hc
    simp at hc

theorem coercedValue_cases {rows : List OutRow} {o0 : OutRow} (h : o0 ∈ rows) :
    (∃ n : Int, colCoerce rows o0.value = PVal.num n) ∨
    colCoerce rows o0.value = PVal.nan := by
  unfold colCoerce
  cases htd : valueColumnIsTimedelta (rows1Of rows)
  · unfold coercedValue
    simp only [Bool.false_eq_true, if_false]
    cases hobj : valueColumnIsObject rows
    · simp only [Bool.false_eq_true, if_false]
      cases o0.value <;> simp [toNumericCoerce]
    · simp only [if_pos]
      cases o0.value <;> simp [toNumericCoerce, convertValue]
  · have htd2 := htd
    unfold valueColumnIsTimedelta at htd2
    rw [Bool.and_eq_true] at htd2
    obtain ⟨-, hall⟩ := htd2
    unfold coercedValue
    simp only [if_pos]
    cases hobj : valueColumnIsObject rows
    · simp only [Bool.false_eq_true, if_false]
      rw [rows1Of_of_not_obj hobj] at hall
      have hbool := List.all_eq_true.mp hall o0 h
      cases hv : o0.value <;> simp_all [durToNanos, isDurCell]
    · simp only [if_pos]
      rw [rows1Of_of_obj hobj] at hall
      have hbool := List.all_eq_true.mp hall { o0 with value := convertValue o0.value }
        (List.mem_map.mpr ⟨o0, h, rfl⟩)
      cases hv : o0.value <;> simp_all [durToNanos, convertValue, isDurCell]

/-- Claim C6: timestamp-column precedence.  For every decoded table, the
data columns are exactly the columns outside the fixed coordinate set
`{latitude, longitude, time, step, valid_time, number, surface,
heightAboveGround, isobaricInhPa}`; and whenever the table exposes a
`valid_time` column, every row of the reshaped output carries, in its
canonical `time` field, the source row's `valid_time` cell (not its `time`
cell). -/
theorem c6_valid_time_precedence (df : RawDF) (v : List Char) (y m : Nat) (out : MonthlyOut)
    (hout : loadGribMonthly (Except.ok df) v y m = some out) :
    (∀ c, c ∈ variableColumnsOf df ↔ c ∈ df.cols ∧ c ∉ potentialCoordinateColumns) ∧
    ("valid_time" ∈ df.cols →
      ∀ o ∈ out.rows, ∃ r ∈ df.rows, o.tm = getCell r "valid_time") := by
  refine ⟨fun c => mem_variableColumnsOf, ?_⟩
  intro hvt o ho
  obtain ⟨-, -, rfl⟩ := loadGribMonthly_eq hout
  rcases processValues_src ho with ⟨o1, ho1, heq, -⟩
  rcases List.mem_map.mp ho1 with ⟨o0, ho0, rfl⟩
  rcases mem_meltAssign.mp ho0 with ⟨c, _, r, hr, rfl⟩
  refine ⟨r, hr, ?_⟩
  rw [heq]
  simp [coerceLatLon, timeColOf, hvt]

/-- Claim C7, counterexample.  The claim states duration-typed values are
first converted to a scalar number of seconds, unconditionally.  But the
`convert_value` pre-conversion only runs when the value column's dtype is
`object`, and a value column holding only Timedeltas has dtype
`timedelta64[ns]`: on `sampleC7TdDF` the melted value column is exactly one
7-second Timedelta, the seconds pre-conversion is skipped, and
`pd.to_numeric` turns it into 7000000000 nanoseconds — the surviving row's
value is not the duration's seconds. -/
theorem c7_counterexample :
    ((meltAssign sampleC7TdDF (s2l "total_precipitation") 2024 3).map coerceLatLon).map
        (fun o => o.value) = [PVal.dur 7] ∧
    valueColumnIsObject
        ((meltAssign sampleC7TdDF (s2l "total_precipitation") 2024 3).map coerceLatLon)
      = false ∧
    loadGribMonthly (Except.ok sampleC7TdDF) (s2l "total_precipitation") 2024 3 =
      some sampleC7TdOut ∧
    sampleC7TdOut.rows.map (fun o => o.value) = [PVal.num 7000000000] ∧
    ¬ (∃ o ∈ sampleC7TdOut.rows, o.value = PVal.num 7) := by
  decide

/-- Claim C7 (amended): value-coercion postcondition.  For every reshaped
table: every surviving row's value is numeric; the dropped-row count plus
the surviving-row count equals the melted-row count, and the dropped count
is exactly the number of melted rows whose value fails numeric coercion
under the composite value transformation; duration-typed values are
converted to a scalar number of seconds before numeric coercion only when
the value column has dtype `object` (it also holds text or numeric cells) —
a homogeneously duration-typed column (`timedelta64[ns]`) skips the seconds
pre-conversion and numeric coercion turns each duration into its integer
nanosecond count instead; latitude and longitude are cast to float32
unconditionally, and value/year/month are stamped float32/int16/int8
whenever any row survives; and the output column order is the fixed list
`[latitude, longitude, time, variable_name, grib_variable_name
(= the spec's raw_field_name), value, year, month]`. -/
theorem c7_value_coercion (df : RawDF) (v : List Char) (y m : Nat) (out : MonthlyOut)
    (hout : loadGribMonthly (Except.ok df) v y m = some out) :
    (∀ o ∈ out.rows, ∃ x : Int, o.value = PVal.num x) ∧
    out.dropped + out.rows.length = ((meltAssign df v y m).map coerceLatLon).length ∧
    out.dropped = (((meltAssign df v y m).map coerceLatLon).filter (fun o =>
      decide (colCoerce ((meltAssign df v y m).map coerceLatLon) o.value
        = PVal.nan))).length ∧
    (valueColumnIsObject ((meltAssign df v y m).map coerceLatLon) = true →
      ∀ o ∈ (meltAssign df v y m).map coerceLatLon, ∀ s : Int, o.value = PVal.dur s →
        { o with value := PVal.num s } ∈ out.rows) ∧
    (valueColumnIsObject ((meltAssign df v y m).map coerceLatLon) = false →
      ∀ o ∈ (meltAssign df v y m).map coerceLatLon, ∀ s : Int, o.value = PVal.dur s →
        { o with value := PVal.num (s * 1000000000) } ∈ out.rows) ∧
    (out.latDtype = DType.float32 ∧ out.lonDtype = DType.float32) ∧
    (out.rows ≠ [] → out.valueDtype = DType.float32 ∧ out.yearDtype = DType.int16 ∧
      out.monthDtype = DType.int8) ∧
    out.cols = ["latitude", "longitude", "time", "variable_name", "grib_variable_name",
      "value", "year", "month"] := by
  obtain ⟨-, -, rfl⟩ := loadGribMonthly_eq hout
  refine ⟨?_, ?_, ?_, ?_, ?_, ⟨rfl, rfl⟩, ?_, rfl⟩
  · intro o ho
    rcases processValues_src ho with ⟨o0, ho0, heq, hnn⟩
    have hval : o.value =
        colCoerce ((meltAssign df v y m).map coerceLatLon) o0.value := by rw [heq]
    rcases coercedValue_cases ho0 with ⟨n, hn⟩ | hn
    · exact ⟨n, by rw [hval, hn]⟩
    · exact absurd (hval.trans hn) hnn
  · exact processValues_length _
  · exact processValues_dropped_eq _
  · intro hobj o ho s hs
    have htd := td_false_of_obj hobj
    have heq2 : colCoerce ((meltAssign df v y m).map coerceLatLon) o.value
        = PVal.num s := by
      unfold colCoerce
      rw [hobj, htd, hs]
      simp [coercedValue, convertValue, toNumericCoerce]
    have hmem := processValues_mem_of ho (by rw [heq2]; simp)
    rw [heq2] at hmem
    exact hmem
  · intro hobj o ho s hs
    have htd := td_true_of_not_obj_dur hobj ho hs
    have heq2 : colCoerce ((meltAssign df v y m).map coerceLatLon) o.value
        = PVal.num (s * 1000000000) := by
      unfold colCoerce
      rw [hobj, htd, hs]
      simp [coercedValue, durToNanos]
    have hmem := processValues_mem_of ho (by rw [heq2]; simp)
    rw [heq2] at hmem
    exact hmem
  · intro hne
    exact ⟨if_pos hne, if_pos hne, if_pos hne⟩

/-- Witness for `c6_valid_time_precedence` on `sampleC6DF`. -/
theorem c6_valid_time_precedence_witness :
    (∀ c, c ∈ variableColumnsOf sampleC6DF ↔
      c ∈ sampleC6DF.cols ∧ c ∉ potentialCoordinateColumns) ∧
    ("valid_time" ∈ sampleC6DF.cols →
      ∀ o ∈ sampleC6Out.rows, ∃ r ∈ sampleC6DF.rows, o.tm = getCell r "valid_time") :=
  c6_valid_time_precedence sampleC6DF (s2l "2m_temperature") 2024 1 sampleC6Out (by decide)

/-- Witness for `c7_value_coercion` on `sampleC7DF` (an `object`-dtype value
column: a Timedelta mixed with text): the Timedelta row survives as 7
seconds, the text row is dropped and counted. -/
theorem c7_value_coercion_witness :
    (∀ o ∈ sampleC7Out.rows, ∃ x : Int, o.value = PVal.num x) ∧
    sampleC7Out.dropped + sampleC7Out.rows.length =
      ((meltAssign sampleC7DF (s2l "total_precipitation") 2024 2).map coerceLatLon).length ∧
    sampleC7Out.dropped =
      (((meltAssign sampleC7DF (s2l "total_precipitation") 2024 2).map coerceLatLon).filter
        (fun o => decide (colCoerce
          ((meltAssign sampleC7DF (s2l "total_precipitation") 2024 2).map coerceLatLon)
          o.value = PVal.nan))).length ∧
    (valueColumnIsObject
        ((meltAssign sampleC7DF (s2l "total_precipitation") 2024 2).map coerceLatLon) = true →
      ∀ o ∈ (meltAssign sampleC7DF (s2l "total_precipitation") 2024 2).map coerceLatLon,
        ∀ s : Int, o.value = PVal.dur s →
          { o with value := PVal.num s } ∈ sampleC7Out.rows) ∧
    (valueColumnIsObject
        ((meltAssign sampleC7DF (s2l "total_precipitation") 2024 2).map coerceLatLon) = false →
      ∀ o ∈ (meltAssign sampleC7DF (s2l "total_precipitation") 2024 2).map coerceLatLon,
        ∀ s : Int, o.value = PVal.dur s →
          { o with value := PVal.num (s * 1000000000) } ∈ sampleC7Out.rows) ∧
    (sampleC7Out.latDtype = DType.float32 ∧ sampleC7Out.lonDtype = DType.float32) ∧
    (sampleC7Out.rows ≠ [] → sampleC7Out.valueDtype = DType.float32 ∧
      sampleC7Out.yearDtype = DType.int16 ∧ sampleC7Out.monthDtype = DType.int8) ∧
    sampleC7Out.cols = ["latitude", "longitude", "time", "variable_name",
      "grib_variable_name", "value", "year", "month"] :=
  c7_value_coercion sampleC7DF (s2l "total_precipitation") 2024 2 sampleC7Out (by decide)

end Wrangle
